import Mathlib

/-!
A shallow embedding of batt-design-override-module.

Two kernel modules are modelled here.

* `chg_param_override.c`: a procfs control channel (`proc_write`, `parse_kv`)
  that mutates the configuration store `g_targets` and the two device names, an
  apply pass (`apply_targets_locked`) that pushes the configured values into
  the power-supply subsystem, kretprobe return handlers that rewrite what
  `power_supply_show_property` and `pd_verifed_show` render, and the module
  initialisation.
* `batt_design_override.c`: kretprobe handlers on `power_supply_get_property`
  and `power_supply_show_property` that substitute design capacity, design
  energy and model name, and the module initialisation.

C strings are lists of characters without the terminating NUL; a byte of a
user buffer is a `Char` whose code is the byte value.  C `int` fields are `Int`;
the one narrowing conversion, `(int)design_uah`, is written out with `% 2^32`.
A pointer is an `Option` holding what it points to, `none` being NULL.  Kernel
services the modules call are either written out after the kernel's library
source (`strim`, `strsep`, `kstrtoint`, `scnprintf`) or taken as parameters of
the environment (`power_supply_get_by_name`, `power_supply_set_property`,
`register_kretprobe`, `kzalloc`, `copy_from_user`, `PAGE_SIZE`).  The handlers
are those of the ARM64 build, the one in which the entry handlers capture
their arguments.
-/

namespace Kernel

/-! ## Error numbers and string primitives -/

/-- Error number `ENOMEM` of `errno-base.h`. -/
def ENOMEM : Int := 12

/-- Error number `EFAULT` of `errno-base.h`. -/
def EFAULT : Int := 14

/-- Error number `ENODEV` of `errno-base.h`. -/
def ENODEV : Int := 19

/-- Error number `EINVAL` of `errno-base.h`. -/
def EINVAL : Int := 22

/-- Error number `EOPNOTSUPP` of `errno.h`. -/
def EOPNOTSUPP : Int := 95

/-- The kernel's `isspace` over its Latin-1 `_ctype` table: HT, LF, VT, FF, CR,
space and the no-break space 0xA0. -/
def isspace (c : Char) : Bool :=
  (9 ≤ c.toNat && c.toNat ≤ 13) || c.toNat == 32 || c.toNat == 160

/-- The C string stored at the start of a byte buffer: everything before the
first NUL. -/
def cstr (buf : List Char) : List Char :=
  buf.takeWhile (fun c => c.toNat != 0)

/-- The kernel's `skip_spaces`: drop the leading white space. -/
def skip_spaces (s : List Char) : List Char :=
  s.dropWhile isspace

/-- The kernel's `strim`: cut the trailing white space (by storing a NUL after
the last non-space character), then return the string past its leading white
space. -/
def strim (s : List Char) : List Char :=
  skip_spaces (s.reverse.dropWhile isspace).reverse

/-- The call `strsep(&line, "\n")`: the token up to the first newline, and the
new value of `line` (`none` is the NULL pointer stored when no delimiter is
left). -/
def strsep (s : List Char) : List Char × Option (List Char) :=
  match s.dropWhile (fun c => c != '\n') with
  | [] => (s, none)
  | _ :: rest => (s.takeWhile (fun c => c != '\n'), some rest)

/-- The call `strchr(kv, '=')` followed by `*val = '\0'; val++`: the text before
the first `=` and the text after it; `none` when there is no `=`. -/
def split_eq (kv : List Char) : Option (List Char × List Char) :=
  match kv.dropWhile (fun c => c != '=') with
  | [] => none
  | _ :: val => some (kv.takeWhile (fun c => c != '='), val)

/-- The call `strlcpy(dst, src, size)`: the string left in `dst`, at most
`size - 1` characters of `src`. -/
def strlcpy (src : List Char) (size : Nat) : List Char :=
  src.take (size - 1)

/-- The kernel's `isdigit`. -/
def isdigit (c : Char) : Bool :=
  48 ≤ c.toNat && c.toNat ≤ 57

/-- Value of a run of decimal digits (`_parse_integer`, base 10). -/
def parse_integer (ds : List Char) : Nat :=
  ds.foldl (fun acc c => 10 * acc + (c.toNat - 48)) 0

/-- The kernel's `_kstrtoull(s, 10, &res)`: at least one digit, then an
optional single newline, then the end of the string.  The 64-bit overflow flag
is not modelled apart: `kstrtoint` rejects every value that does not fit an
`int` anyway. -/
def _kstrtoull (s : List Char) : Option Nat :=
  let ds := s.takeWhile isdigit
  let rest := s.dropWhile isdigit
  if ds = [] then none
  else
    let rest := match rest with
      | '\n' :: r => r
      | r => r
    if rest = [] then some (parse_integer ds) else none

/-- The kernel's `kstrtoll(s, 10, &res)`: a leading `-` negates, otherwise one
leading `+` is skipped. -/
def kstrtoll (s : List Char) : Option Int :=
  match s with
  | '-' :: t => (_kstrtoull t).map (fun n => - (n : Int))
  | '+' :: t => (_kstrtoull t).map (fun n => (n : Int))
  | _ => (_kstrtoull s).map (fun n => (n : Int))

/-- The test `kstrtoint(s, 10, &v) == 0` with the value stored in `v`; `none`
stands for every non-zero return (`-EINVAL`, `-ERANGE`). -/
def kstrtoint (s : List Char) : Option Int :=
  match kstrtoll s with
  | some v => if -2147483648 ≤ v ∧ v ≤ 2147483647 then some v else none
  | none => none

/-- The conversion `%d` of `scnprintf` for an `int`. -/
def fmt_d (v : Int) : List Char :=
  if v < 0 then '-' :: Nat.toDigits 10 v.natAbs else Nat.toDigits 10 v.natAbs

/-- The conversion `%llu` of `scnprintf`. -/
def fmt_llu (n : Nat) : List Char :=
  Nat.toDigits 10 n

/-- The call `scnprintf(buf, size, ...)` given the fully formatted text: the C
string left in `buf` and the returned length (the text is cut to `size - 1`
characters; nothing is written when `size` is 0). -/
def scnprintf (old : List Char) (size : Nat) (text : List Char) : List Char × Nat :=
  if size = 0 then (old, 0) else (text.take (size - 1), (text.take (size - 1)).length)

/-- The conversion of an `unsigned long long` to `int`: the low 32 bits read as
a two's complement number. -/
def to_int (n : Nat) : Int :=
  if n % 4294967296 < 2147483648 then ((n % 4294967296 : Nat) : Int)
  else ((n % 4294967296 : Nat) : Int) - 4294967296

/-! ## The power-supply subsystem as seen by the modules -/

/-- The members of `enum power_supply_property` the two modules name; every
other member is `other` with its numeric code. -/
inductive power_supply_property where
  | VOLTAGE_MAX
  | CONSTANT_CHARGE_CURRENT
  | CHARGE_TERM_CURRENT
  | CHARGE_CONTROL_LIMIT
  | INPUT_CURRENT_LIMIT
  | CHARGE_FULL_DESIGN
  | ENERGY_FULL_DESIGN
  | MODEL_NAME
  | other (code : Nat)
  deriving DecidableEq, Repr

/-- The fields of `struct power_supply_desc` the modules read: the name
(`none` is a NULL pointer) and whether the `set_property` callback is set. -/
structure power_supply_desc where
  name : Option (List Char)
  set_property : Bool
  deriving DecidableEq, Repr

/-- A `struct power_supply`; `desc = none` is a NULL descriptor. -/
structure power_supply where
  desc : Option power_supply_desc
  deriving DecidableEq, Repr

/-- A `struct device`: only its driver data (`dev_get_drvdata`) is read. -/
structure device where
  drvdata : Option power_supply
  deriving DecidableEq, Repr

/-- A `struct device_attribute`: only `attr.name` is read. -/
structure device_attribute where
  name : Option (List Char)
  deriving DecidableEq, Repr

/-- The invocation context `struct ps_show_args` that `show_entry_handler` saves
from x0, x1, x2.  `buf` is the caller's page, given as the C string it holds
when the return handler runs. -/
structure ps_show_args where
  dev : Option device
  da : Option device_attribute
  buf : Option (List Char)
  deriving DecidableEq, Repr

/-- The result of a handler that may dereference a NULL pointer: `oops` is the
kernel fault of `strcmp` on NULL. -/
inductive Outcome (α : Type) where
  | done (a : α)
  | oops
  deriving DecidableEq, Repr

/-- The name `psy->desc->name` when `psy` and `psy->desc` are non-NULL, else
NULL. -/
def psy_name (psy : Option power_supply) : Option (List Char) :=
  match psy with
  | none => none
  | some p =>
    match p.desc with
    | none => none
    | some d => d.name

end Kernel

namespace ChgParamOverride

open Kernel

/-! ## chg_param_override: the configuration store -/

/-- The C `struct chg_targets`. -/
structure chg_targets where
  voltage_max_uv : Int
  constant_charge_current_ua : Int
  term_current_ua : Int
  usb_input_current_limit_ua : Int
  charge_control_limit_percent : Int
  pd_verifed : Int
  pd_verifed_enabled : Bool
  last_pd_verifed : Int
  deriving DecidableEq, Repr

/-- The configuration store: `g_targets` and the two device names
`target_batt[32]`, `target_usb[16]`. -/
structure Store where
  g_targets : chg_targets
  target_batt : List Char
  target_usb : List Char
  deriving DecidableEq, Repr

/-- The function `parse_kv(key, val)`: the return value and the store
afterwards.  `kstrtoint(val, 10, &v) == 0` is `(kstrtoint val).isSome`, and `v`
is then `(kstrtoint val).getD 0`. -/
def parse_kv (key val : List Char) (st : Store) : Int × Store :=
  let g := st.g_targets
  if key = "voltage_max".toList ∧ (kstrtoint val).isSome then
    (0, { st with g_targets := { g with voltage_max_uv := (kstrtoint val).getD 0 } })
  else if (key = "constant_charge_current".toList ∨ key = "ccc".toList)
      ∧ (kstrtoint val).isSome then
    (0, { st with g_targets :=
      { g with constant_charge_current_ua := (kstrtoint val).getD 0 } })
  else if (key = "term".toList ∨ key = "charge_term_current".toList)
      ∧ (kstrtoint val).isSome then
    (0, { st with g_targets := { g with term_current_ua := (kstrtoint val).getD 0 } })
  else if (key = "icl".toList ∨ key = "input_current_limit".toList)
      ∧ (kstrtoint val).isSome then
    (0, { st with g_targets :=
      { g with usb_input_current_limit_ua := (kstrtoint val).getD 0 } })
  else if (key = "charge_limit".toList ∨ key = "charge_control_limit".toList)
      ∧ (kstrtoint val).isSome then
    let v := (kstrtoint val).getD 0
    if 0 ≤ v ∧ v ≤ 100 then
      (0, { st with g_targets := { g with charge_control_limit_percent := v } })
    else
      (-EINVAL, st)
  else if key = "pd_verifed".toList ∧ (kstrtoint val).isSome then
    let v := (kstrtoint val).getD 0
    if v = 0 ∨ v = 1 then
      (0, { st with g_targets := { g with pd_verifed := v, pd_verifed_enabled := true } })
    else
      (-EINVAL, st)
  else if key = "pd_verifed_disable".toList then
    (0, { st with g_targets := { g with pd_verifed_enabled := false } })
  else if key = "batt".toList then
    (0, { st with target_batt := strlcpy val 32 })
  else if key = "usb".toList then
    (0, { st with target_usb := strlcpy val 16 })
  else
    (-EINVAL, st)

/-! ## chg_param_override: the apply pass -/

/-- The subsystem calls of the apply pass: `power_supply_get_by_name` (`none`
is NULL, the device is absent) and the return value of
`power_supply_set_property`. -/
structure Subsys where
  power_supply_get_by_name : List Char → Option power_supply
  power_supply_set_property : power_supply → power_supply_property → Int → Int

/-- What an operation does to the world outside the store, in program order. -/
inductive Event where
  | mutex_lock
  | mutex_unlock
  /-- Entry into `apply_targets_locked`, with the store the pass reads. -/
  | apply_enter (st : Store)
  | get_by_name (name : List Char)
  /-- One call of `write_psy_int` and the value it returned. -/
  | write_psy_int (psy : power_supply) (psp : power_supply_property) (val rc : Int)
  /-- The call `power_supply_set_property(psy, psp, &prop)` with `prop.intval = val`. -/
  | set_property (psy : power_supply) (psp : power_supply_property) (val : Int)
  | put (psy : power_supply)
  deriving DecidableEq, Repr

/-- The function `write_psy_int(psy, psp, val)`: the return value and the
subsystem call it made, if any. -/
def write_psy_int (sys : Subsys) (psy : Option power_supply) (psp : power_supply_property)
    (val : Int) : Int × List Event :=
  match psy with
  | none => (-ENODEV, [])
  | some p =>
    match p.desc with
    | none => (-EOPNOTSUPP, [])
    | some desc =>
      if !desc.set_property then (-EOPNOTSUPP, [])
      else (sys.power_supply_set_property p psp val, [Event.set_property p psp val])

/-- One guarded write of `apply_targets_locked`, that is
`if (target > 0) { rc = write_psy_int(psy, psp, target); ... }`; the `pr_info`
on failure is not modelled. -/
def apply_one (sys : Subsys) (psy : power_supply) (psp : power_supply_property)
    (target : Int) : List Event :=
  if target > 0 then
    let r := write_psy_int sys (some psy) psp target
    r.2 ++ [Event.write_psy_int psy psp target r.1]
  else []

/-- The function `apply_targets_locked()` (built with `DISABLE_PD_VERIFED 1`):
the return value, which is the never reassigned `ret = 0`, and the events of
the pass. -/
def apply_targets_locked (sys : Subsys) (st : Store) : Int × List Event :=
  let g := st.g_targets
  let batt := sys.power_supply_get_by_name st.target_batt
  let usb := sys.power_supply_get_by_name st.target_usb
  let evBatt := match batt with
    | some b =>
      apply_one sys b .VOLTAGE_MAX g.voltage_max_uv
      ++ apply_one sys b .CONSTANT_CHARGE_CURRENT g.constant_charge_current_ua
      ++ apply_one sys b .CHARGE_TERM_CURRENT g.term_current_ua
      ++ apply_one sys b .CHARGE_CONTROL_LIMIT g.charge_control_limit_percent
    | none => []
  let evUsb := match usb with
    | some u => apply_one sys u .INPUT_CURRENT_LIMIT g.usb_input_current_limit_ua
    | none => []
  let putBatt := match batt with
    | some b => [Event.put b]
    | none => []
  let putUsb := match usb with
    | some u => [Event.put u]
    | none => []
  (0, [Event.apply_enter st, Event.get_by_name st.target_batt, Event.get_by_name st.target_usb]
      ++ evBatt ++ evUsb ++ putBatt ++ putUsb)

/-! ## chg_param_override: the procfs write handler -/

/-- The `while (line && *line)` loop of `proc_write`: the value of `rc` and the
store when the loop is left.  `line = none` is the NULL pointer.  Every
iteration shortens `line`, so the recursion is bounded by `fuel`; `none` is
returned only when the fuel runs out. -/
def proc_write_loop : Nat → Option (List Char) → Store → Option (Int × Store)
  | 0, _, _ => none
  | fuel + 1, line, st =>
    match line with
    | none => some (0, st)
    | some [] => some (0, st)
    | some (c :: cs) =>
      let kv := strim (strsep (c :: cs)).1
      let line := (strsep (c :: cs)).2
      if kv = [] then proc_write_loop fuel line st
      else
        match split_eq kv with
        | none => some (-EINVAL, st)
        | some (key, val) =>
          let r := parse_kv key val st
          if r.1 ≠ 0 then some r
          else proc_write_loop fuel line r.2

/-- The function `proc_write(file, buf, count, ppos)` with `count = buf.length`:
the return value, the store afterwards and the events.  `PAGE_SIZE` is the
kernel's page size; `kzalloc_ok` and `copy_ok` say whether `kzalloc` returned
memory and whether `copy_from_user` copied every byte.  The loop is given more
fuel than the text has characters. -/
def proc_write (PAGE_SIZE : Nat) (sys : Subsys) (kzalloc_ok copy_ok : Bool)
    (buf : List Char) (st : Store) : Option (Int × Store × List Event) :=
  let count := buf.length
  if count = 0 ∨ count > PAGE_SIZE then some (-EINVAL, st, [])
  else if !kzalloc_ok then some (-ENOMEM, st, [])
  else if !copy_ok then some (-EFAULT, st, [])
  else
    let line := strim (cstr buf)
    match proc_write_loop (line.length + 1) (some line) st with
    | none => none
    | some (rc, st1) =>
      if rc = 0 then
        let a := apply_targets_locked sys st1
        some (if a.1 ≠ 0 then a.1 else (count : Int), st1,
          [Event.mutex_lock] ++ a.2 ++ [Event.mutex_unlock])
      else
        some (rc, st1, [Event.mutex_lock, Event.mutex_unlock])

/-! ## chg_param_override: the show-path return handlers -/

/-- One rewrite of `show_ret_handler`:
`v = scnprintf(args->buf, PAGE_SIZE, "%d\n", target); regs->regs[0] = v`. -/
def show_rewrite (PAGE_SIZE : Nat) (buf : List Char) (target : Int) :
    Option (List Char) × Int :=
  (some (scnprintf buf PAGE_SIZE (fmt_d target ++ ['\n'])).1,
    ((scnprintf buf PAGE_SIZE (fmt_d target ++ ['\n'])).2 : Int))

/-- The function `show_ret_handler(ri, regs)` of chg_param_override: the
caller's page and the return value in x0 after the handler, given the saved
invocation context and the x0 the hooked function returned.  An `attr.name`
that is NULL faults in `strcmp`. -/
def show_ret_handler (PAGE_SIZE : Nat) (st : Store) (args : ps_show_args) (x0 : Int) :
    Outcome (Option (List Char) × Int) :=
  match args.dev, args.da, args.buf with
  | some dev, some da, some buf =>
    let name := psy_name dev.drvdata
    if name = some st.target_batt then
      match da.name with
      | none => Outcome.oops
      | some attr =>
        if attr = "voltage_max".toList ∧ st.g_targets.voltage_max_uv > 0 then
          Outcome.done (show_rewrite PAGE_SIZE buf st.g_targets.voltage_max_uv)
        else if attr = "constant_charge_current".toList
            ∧ st.g_targets.constant_charge_current_ua > 0 then
          Outcome.done (show_rewrite PAGE_SIZE buf st.g_targets.constant_charge_current_ua)
        else if (attr = "charge_termination_current".toList
              ∨ attr = "charge_term_current".toList)
            ∧ st.g_targets.term_current_ua > 0 then
          Outcome.done (show_rewrite PAGE_SIZE buf st.g_targets.term_current_ua)
        else Outcome.done (some buf, x0)
    else if name = some st.target_usb then
      match da.name with
      | none => Outcome.oops
      | some attr =>
        if attr = "input_current_limit".toList
            ∧ st.g_targets.usb_input_current_limit_ua > 0 then
          Outcome.done (show_rewrite PAGE_SIZE buf st.g_targets.usb_input_current_limit_ua)
        else Outcome.done (some buf, x0)
    else Outcome.done (some buf, x0)
  | _, _, _ => Outcome.done (args.buf, x0)

/-- The invocation context `struct class_show_args` of the `pd_verifed_show`
probe; `cls` and `attr` are kept as raw pointer values. -/
structure class_show_args where
  cls : Nat
  attr : Nat
  buf : Option (List Char)
  deriving DecidableEq, Repr

/-- The function `pd_show_ret(ri, regs)`: the caller's page and x0 after the
handler. -/
def pd_show_ret (PAGE_SIZE : Nat) (args : class_show_args) (x0 : Int) :
    Option (List Char) × Int :=
  match args.buf with
  | none => (none, x0)
  | some buf =>
    (some (scnprintf buf PAGE_SIZE "1\n".toList).1,
      ((scnprintf buf PAGE_SIZE "1\n".toList).2 : Int))

/-! ## chg_param_override: module initialisation -/

/-- The results of the registration calls of `chg_override_init`:
whether `proc_create` returned an entry, and the return values of the two
`register_kretprobe` calls and of `power_supply_reg_notifier`. -/
structure InitEnv where
  proc_create_ok : Bool
  register_ps_show : Int
  register_pd_show : Int
  reg_notifier : Int
  deriving DecidableEq, Repr

/-- What the module has installed in the kernel. -/
structure Installed where
  proc_entry : Bool
  ps_show_kretprobe : Bool
  pd_show_kretprobe : Bool
  monitor_timer : Bool
  psy_nb : Bool
  deriving DecidableEq, Repr

/-- Nothing installed: the state before `chg_override_init` runs. -/
def Installed.none : Installed :=
  { proc_entry := false, ps_show_kretprobe := false, pd_show_kretprobe := false,
    monitor_timer := false, psy_nb := false }

/-- The function `chg_override_init()`: the return value and what is installed
when it returns.  Each `let` is one statement of the source that installs or
removes something. -/
def chg_override_init (env : InitEnv) : Int × Installed :=
  let s := Installed.none
  if !env.proc_create_ok then (-ENOMEM, s)
  else
    let s := { s with proc_entry := true }
    if env.register_ps_show ≠ 0 then
      let s := { s with proc_entry := false }
      (env.register_ps_show, s)
    else
      let s := { s with ps_show_kretprobe := true }
      if env.register_pd_show ≠ 0 then
        let s := { s with ps_show_kretprobe := false }
        let s := { s with proc_entry := false }
        (env.register_pd_show, s)
      else
        let s := { s with pd_show_kretprobe := true }
        let s := { s with monitor_timer := true }
        if env.reg_notifier ≠ 0 then
          let s := { s with monitor_timer := false }
          let s := { s with ps_show_kretprobe := false }
          let s := { s with proc_entry := false }
          (env.reg_notifier, s)
        else
          let s := { s with psy_nb := true }
          (0, s)

/-- The function `chg_override_exit()`: everything is removed. -/
def chg_override_exit (s : Installed) : Installed :=
  let s := { s with psy_nb := false }
  let s := { s with monitor_timer := false }
  let s := { s with pd_show_kretprobe := false }
  let s := { s with ps_show_kretprobe := false }
  let s := { s with proc_entry := false }
  s

end ChgParamOverride

namespace BattDesignOverride

open Kernel

/-! ## batt_design_override -/

/-- The module parameters.  `design_uah` and `design_uwh` are
`unsigned long long`; `model_name[0] != 0` is `model_name ≠ []`. -/
structure Params where
  batt_name : List Char
  override_any : Bool
  verbose : Bool
  design_uah : Nat
  design_uwh : Nat
  model_name : List Char
  deriving DecidableEq, Repr

/-- The C `union power_supply_propval`, as the member last written. -/
inductive power_supply_propval where
  | intval (v : Int)
  | strval (s : List Char)
  deriving DecidableEq, Repr

/-- The invocation context `struct ps_getprop_args` that `entry_handler` saves
from x0, x1, x2.  `val` is the caller's output union, given as the value it
holds when the return handler runs. -/
structure ps_getprop_args where
  psy : Option power_supply
  psp : power_supply_property
  val : Option power_supply_propval
  deriving DecidableEq, Repr

/-- The test `args->psy->desc && !strcmp(args->psy->desc->name, batt_name)` of
`ret_handler`; a descriptor whose name is NULL faults in `strcmp`. -/
def desc_name_matches (p : Params) (psy : power_supply) : Outcome Bool :=
  match psy.desc with
  | none => Outcome.done false
  | some d =>
    match d.name with
    | none => Outcome.oops
    | some n => Outcome.done (decide (n = p.batt_name))

/-- One branch of `ret_handler`, that is
`if ((override_any && present) || (desc && !strcmp(...) && present)) *val = new`.
The `pr_info` is not modelled. -/
def ret_branch (p : Params) (psy : power_supply) (present : Bool)
    (old new : power_supply_propval) : Outcome (Option power_supply_propval) :=
  if p.override_any ∧ present then Outcome.done (some new)
  else
    match desc_name_matches p psy with
    | Outcome.oops => Outcome.oops
    | Outcome.done m => if m ∧ present then Outcome.done (some new) else Outcome.done (some old)

/-- The function `ret_handler(ri, regs)`: the caller's output union after the
handler, given the saved invocation context and the value
`regs_return_value(regs)` the hooked `power_supply_get_property` returned. -/
def ret_handler (p : Params) (args : ps_getprop_args) (retval : Int) :
    Outcome (Option power_supply_propval) :=
  match args.psy, args.val with
  | some psy, some val =>
    if retval ≠ 0 then Outcome.done (some val)
    else if args.psp = power_supply_property.CHARGE_FULL_DESIGN then
      ret_branch p psy (decide (p.design_uah > 0)) val
        (power_supply_propval.intval (to_int p.design_uah))
    else if args.psp = power_supply_property.ENERGY_FULL_DESIGN then
      ret_branch p psy (decide (p.design_uwh > 0)) val
        (power_supply_propval.intval (to_int p.design_uwh))
    else if args.psp = power_supply_property.MODEL_NAME then
      ret_branch p psy (decide (p.model_name ≠ [])) val
        (power_supply_propval.strval p.model_name)
    else Outcome.done (some val)
  | _, _ => Outcome.done args.val

/-- One branch of `show_ret_handler`, that is
`if ((override_any && present) || (name && !strcmp(name, batt_name) && present))`
followed by `newlen = scnprintf(buf, PAGE_SIZE, ...); regs->regs[0] = newlen`. -/
def show_branch (PAGE_SIZE : Nat) (p : Params) (name : Option (List Char)) (present : Bool)
    (buf : List Char) (x0 : Int) (text : List Char) : Option (List Char) × Int :=
  if (p.override_any ∧ present) ∨ (name = some p.batt_name ∧ present) then
    (some (scnprintf buf PAGE_SIZE text).1, ((scnprintf buf PAGE_SIZE text).2 : Int))
  else (some buf, x0)

/-- The function `show_ret_handler(ri, regs)` of batt_design_override: the
caller's page and the return value in x0 after the handler. -/
def show_ret_handler (PAGE_SIZE : Nat) (p : Params) (args : ps_show_args) (x0 : Int) :
    Option (List Char) × Int :=
  match args.dev, args.da, args.buf with
  | some dev, some da, some buf =>
    match da.name with
    | none => (some buf, x0)
    | some attr =>
      let name := psy_name dev.drvdata
      if attr = "charge_full_design".toList then
        show_branch PAGE_SIZE p name (decide (p.design_uah > 0)) buf x0
          (fmt_llu p.design_uah ++ ['\n'])
      else if attr = "energy_full_design".toList then
        show_branch PAGE_SIZE p name (decide (p.design_uwh > 0)) buf x0
          (fmt_llu p.design_uwh ++ ['\n'])
      else if attr = "model_name".toList then
        show_branch PAGE_SIZE p name (decide (p.model_name ≠ [])) buf x0
          (p.model_name ++ ['\n'])
      else (some buf, x0)
  | _, _, _ => (args.buf, x0)

/-- The results of the two `register_kretprobe` calls of `batt_override_init`. -/
structure InitEnv where
  register_getprop : Int
  register_show : Int
  deriving DecidableEq, Repr

/-- The probes the module has registered. -/
structure Installed where
  ps_getprop_kretprobe : Bool
  ps_show_kretprobe : Bool
  deriving DecidableEq, Repr

/-- The function `batt_override_init()`: the return value and the probes
registered when it returns. -/
def batt_override_init (env : InitEnv) : Int × Installed :=
  let s : Installed := { ps_getprop_kretprobe := false, ps_show_kretprobe := false }
  if env.register_getprop ≠ 0 then (env.register_getprop, s)
  else
    let s := { s with ps_getprop_kretprobe := true }
    if env.register_show ≠ 0 then
      let s := { s with ps_getprop_kretprobe := false }
      (env.register_show, s)
    else
      let s := { s with ps_show_kretprobe := true }
      (0, s)

end BattDesignOverride

namespace ChgParamOverride

open Kernel

/-! ## Vocabulary of the statements about chg_param_override -/

/-- The keys the control channel recognises. -/
def recognized_keys : List (List Char) :=
  ["voltage_max".toList, "constant_charge_current".toList, "ccc".toList, "term".toList,
   "charge_term_current".toList, "icl".toList, "input_current_limit".toList,
   "charge_limit".toList, "charge_control_limit".toList, "pd_verifed".toList,
   "pd_verifed_disable".toList, "batt".toList, "usb".toList]

/-- Whether `key=val` is a recognised key with a valid value: an `int` for the
four electrical targets, an integer in [0,100] for the charge limit, 0 or 1 for
`pd_verifed`; `pd_verifed_disable`, `batt` and `usb` take any text. -/
def valid_kv (key val : List Char) : Bool :=
  if key ∈ ["voltage_max".toList, "constant_charge_current".toList, "ccc".toList,
      "term".toList, "charge_term_current".toList, "icl".toList,
      "input_current_limit".toList] then
    (kstrtoint val).isSome
  else if key ∈ ["charge_limit".toList, "charge_control_limit".toList] then
    match kstrtoint val with
    | some v => decide (0 ≤ v ∧ v ≤ 100)
    | none => false
  else if key = "pd_verifed".toList then
    match kstrtoint val with
    | some v => decide (v = 0 ∨ v = 1)
    | none => false
  else
    decide (key ∈ ["pd_verifed_disable".toList, "batt".toList, "usb".toList])

/-- The lines of a text: the runs of characters between newlines. -/
def text_lines : List Char → List (List Char)
  | [] => [[]]
  | c :: cs =>
    if c = '\n' then [] :: text_lines cs
    else
      match text_lines cs with
      | [] => [[c]]
      | l :: ls => (c :: l) :: ls

/-- The lines a `line` pointer of `proc_write` still has to yield. -/
def lines_of : Option (List Char) → List (List Char)
  | none => []
  | some s => text_lines s

/-- Processing lines in order: blank lines are skipped, the first line that is
not a valid `key=value` stops the run with its error, every other line is
committed by `parse_kv`. -/
def run_lines : List (List Char) → Store → Int × Store
  | [], st => (0, st)
  | l :: ls, st =>
    if strim l = [] then run_lines ls st
    else
      match split_eq (strim l) with
      | none => (-EINVAL, st)
      | some (key, val) =>
        let r := parse_kv key val st
        if r.1 ≠ 0 then r else run_lines ls r.2

/-- A line with nothing but white space. -/
def blank_line (l : List Char) : Bool := decide (strim l = [])

/-- A line that, once trimmed, is `key=value` with a recognised key and a valid
value. -/
def valid_line (l : List Char) : Bool :=
  match split_eq (strim l) with
  | none => false
  | some (key, val) => valid_kv key val

/-- The store after the single keyed update a line asks for. -/
def commit_line (l : List Char) (st : Store) : Store :=
  match split_eq (strim l) with
  | none => st
  | some (key, val) => (parse_kv key val st).2

/-- The store after the lines have been applied one after the other. -/
def commit_lines (ls : List (List Char)) (st : Store) : Store :=
  ls.foldl (fun s l => commit_line l s) st

/-- The stores seen by the apply passes of a trace, in order. -/
def apply_passes (tr : List Event) : List Store :=
  tr.filterMap (fun e => match e with
    | Event.apply_enter st => some st
    | _ => none)

/-- The calls of `write_psy_int` in a trace: device, property and value. -/
def write_attempts (tr : List Event) : List (power_supply × power_supply_property × Int) :=
  tr.filterMap (fun e => match e with
    | Event.write_psy_int p psp v _ => some (p, psp, v)
    | _ => none)

/-- The writes one apply pass owes: for each device that was found, its
properties whose target is present (non-zero), with the configured value. -/
def expected_attempts (sys : Subsys) (st : Store) :
    List (power_supply × power_supply_property × Int) :=
  (match sys.power_supply_get_by_name st.target_batt with
    | some b =>
      [(b, power_supply_property.VOLTAGE_MAX, st.g_targets.voltage_max_uv),
       (b, power_supply_property.CONSTANT_CHARGE_CURRENT, st.g_targets.constant_charge_current_ua),
       (b, power_supply_property.CHARGE_TERM_CURRENT, st.g_targets.term_current_ua),
       (b, power_supply_property.CHARGE_CONTROL_LIMIT,
          st.g_targets.charge_control_limit_percent)].filter (fun x => x.2.2 ≠ 0)
    | none => [])
  ++
  (match sys.power_supply_get_by_name st.target_usb with
    | some u =>
      [(u, power_supply_property.INPUT_CURRENT_LIMIT,
          st.g_targets.usb_input_current_limit_ua)].filter (fun x => x.2.2 ≠ 0)
    | none => [])

/-- The stored target that overrides attribute `attr` of the battery device. -/
def batt_attr_target (st : Store) (attr : List Char) : Option Int :=
  if attr = "voltage_max".toList then some st.g_targets.voltage_max_uv
  else if attr = "constant_charge_current".toList then
    some st.g_targets.constant_charge_current_ua
  else if attr = "charge_termination_current".toList ∨ attr = "charge_term_current".toList then
    some st.g_targets.term_current_ua
  else none

/-- The stored target that overrides attribute `attr` of the input-source
device. -/
def usb_attr_target (st : Store) (attr : List Char) : Option Int :=
  if attr = "input_current_limit".toList then some st.g_targets.usb_input_current_limit_ua
  else none

/-- The invocation context of a show call on a device whose descriptor carries
the name `n`, for the attribute `attr`, with the page holding `buf`. -/
def show_args (n attr buf : List Char) : ps_show_args :=
  { dev := some { drvdata := some { desc := some { name := some n, set_property := true } } }
    da := some { name := some attr }
    buf := some buf }

/-- Whether an installed state has a kretprobe registered. -/
def Installed.any_probe (s : Installed) : Bool :=
  s.ps_show_kretprobe || s.pd_show_kretprobe

/-- A store with every target absent and the default device names. -/
def store0 : Store :=
  { g_targets := ⟨0, 0, 0, 0, 0, 0, false, 0⟩
    target_batt := "battery".toList
    target_usb := "usb".toList }

/-- A store whose protocol-mode control is enabled. -/
def store_pd : Store :=
  { store0 with g_targets := { store0.g_targets with pd_verifed := 1, pd_verifed_enabled := true } }

/-- The store after `voltage_max=4460000`. -/
def store_vmax : Store :=
  { store0 with g_targets := { store0.g_targets with voltage_max_uv := 4460000 } }

/-- A store with a target voltage, an input current limit and a charge limit
configured, the two currents absent. -/
def store_apply : Store :=
  { store0 with g_targets := { store0.g_targets with
      voltage_max_uv := 4460000, usb_input_current_limit_ua := 1500000,
      charge_control_limit_percent := 80 } }

/-- A store whose two device names coincide (after `batt=usb`), with an input
current limit configured. -/
def store_same_name : Store :=
  { g_targets := ⟨0, 0, 0, 1500000, 0, 0, false, 0⟩
    target_batt := "usb".toList
    target_usb := "usb".toList }

/-- A subsystem with a writable `battery`, a `usb` supply without
`set_property`, and every property write refused with `-EINVAL`. -/
def sys0 : Subsys :=
  { power_supply_get_by_name := fun n =>
      if n = "battery".toList then some ⟨some ⟨some n, true⟩⟩
      else if n = "usb".toList then some ⟨some ⟨some n, false⟩⟩
      else none
    power_supply_set_property := fun _ _ _ => -22 }

/-- The two-line write `voltage_max=4460000`, `charge_limit=150`. -/
def buf_partial : List Char := "voltage_max=4460000\ncharge_limit=150\n".toList

/-- The four-line write with a repeated key and an empty line. -/
def buf_valid : List Char :=
  "voltage_max=4400000\nvoltage_max=4460000\n\nicl=1500000\n".toList

/-- The registration results in which only `power_supply_reg_notifier` fails. -/
def env_notifier_fails : InitEnv :=
  { proc_create_ok := true, register_ps_show := 0, register_pd_show := 0, reg_notifier := -22 }

end ChgParamOverride

namespace BattDesignOverride

open Kernel

/-! ## Vocabulary of the statements about batt_design_override -/

/-- The three properties the module overrides. -/
def overridable (psp : power_supply_property) : Bool :=
  match psp with
  | power_supply_property.CHARGE_FULL_DESIGN => true
  | power_supply_property.ENERGY_FULL_DESIGN => true
  | power_supply_property.MODEL_NAME => true
  | _ => false

/-- Whether the target value for a property is present: `design_uah > 0`,
`design_uwh > 0`, `model_name` non-empty. -/
def target_present (p : Params) (psp : power_supply_property) : Bool :=
  match psp with
  | power_supply_property.CHARGE_FULL_DESIGN => decide (p.design_uah > 0)
  | power_supply_property.ENERGY_FULL_DESIGN => decide (p.design_uwh > 0)
  | power_supply_property.MODEL_NAME => decide (p.model_name ≠ [])
  | _ => false

/-- The value the handler stores for a property. -/
def override_value (p : Params) (psp : power_supply_property) (old : power_supply_propval) :
    power_supply_propval :=
  match psp with
  | power_supply_property.CHARGE_FULL_DESIGN => power_supply_propval.intval (to_int p.design_uah)
  | power_supply_property.ENERGY_FULL_DESIGN => power_supply_propval.intval (to_int p.design_uwh)
  | power_supply_property.MODEL_NAME => power_supply_propval.strval p.model_name
  | _ => old

/-- The match predicate: `override_any` is set, or the device has a descriptor
whose name equals `batt_name`.  `dname = none` is a device without descriptor. -/
def name_applies (p : Params) (dname : Option (List Char)) : Bool :=
  p.override_any || decide (dname = some p.batt_name)

/-- A device without descriptor (`dname = none`) or with a descriptor named
`n` (`dname = some n`). -/
def mk_psy (dname : Option (List Char)) : power_supply :=
  { desc := dname.map (fun n => { name := some n, set_property := false }) }

/-- The module parameters after `design_uah=5000000 design_uwh=19350000`. -/
def params0 : Params :=
  { batt_name := "battery".toList, override_any := false, verbose := true,
    design_uah := 5000000, design_uwh := 19350000, model_name := [] }

/-- The module parameters after `design_uah=3000000000`. -/
def params_big : Params :=
  { params0 with design_uah := 3000000000 }

end BattDesignOverride

namespace ChgParamOverride

open Kernel

/-- The parts of the store a control-channel key can set. -/
inductive Field where
  | voltage_max
  | constant_charge_current
  | term_current
  | input_current_limit
  | charge_control_limit
  | pd_verifed
  | pd_verifed_enabled
  | target_batt
  | target_usb
  deriving DecidableEq, Repr

/-- The content of one part of the store. -/
inductive FieldVal where
  | int (v : Int)
  | flag (b : Bool)
  | name (s : List Char)
  deriving DecidableEq, Repr

/-- The parts of the store a key sets. -/
def key_fields (key : List Char) : List Field :=
  if key = "voltage_max".toList then [Field.voltage_max]
  else if key = "constant_charge_current".toList ∨ key = "ccc".toList then
    [Field.constant_charge_current]
  else if key = "term".toList ∨ key = "charge_term_current".toList then [Field.term_current]
  else if key = "icl".toList ∨ key = "input_current_limit".toList then
    [Field.input_current_limit]
  else if key = "charge_limit".toList ∨ key = "charge_control_limit".toList then
    [Field.charge_control_limit]
  else if key = "pd_verifed".toList then [Field.pd_verifed, Field.pd_verifed_enabled]
  else if key = "pd_verifed_disable".toList then [Field.pd_verifed_enabled]
  else if key = "batt".toList then [Field.target_batt]
  else if key = "usb".toList then [Field.target_usb]
  else []

/-- Reading one part of the store. -/
def read_field (f : Field) (st : Store) : FieldVal :=
  match f with
  | Field.voltage_max => FieldVal.int st.g_targets.voltage_max_uv
  | Field.constant_charge_current => FieldVal.int st.g_targets.constant_charge_current_ua
  | Field.term_current => FieldVal.int st.g_targets.term_current_ua
  | Field.input_current_limit => FieldVal.int st.g_targets.usb_input_current_limit_ua
  | Field.charge_control_limit => FieldVal.int st.g_targets.charge_control_limit_percent
  | Field.pd_verifed => FieldVal.int st.g_targets.pd_verifed
  | Field.pd_verifed_enabled => FieldVal.flag st.g_targets.pd_verifed_enabled
  | Field.target_batt => FieldVal.name st.target_batt
  | Field.target_usb => FieldVal.name st.target_usb

/-- Whether a line, once trimmed, is `key=value` for a key that sets `f`. -/
def line_sets (l : List Char) (f : Field) : Bool :=
  match split_eq (strim l) with
  | none => false
  | some (key, _) => decide (f ∈ key_fields key)

end ChgParamOverride

namespace ChgParamOverride

open Kernel

/-! ## chg_param_override: the procfs read handler -/

/-- The text `proc_read` formats into `kbuf`: the arguments of its `scnprintf`
laid out by the format string. -/
def read_text (auto_reapply : Bool) (st : Store) : List Char :=
  "batt=".toList ++ st.target_batt ++ " usb=".toList ++ st.target_usb ++ ['\n']
  ++ "voltage_max=".toList ++ fmt_d st.g_targets.voltage_max_uv ++ ['\n']
  ++ "ccc=".toList ++ fmt_d st.g_targets.constant_charge_current_ua ++ ['\n']
  ++ "term=".toList ++ fmt_d st.g_targets.term_current_ua ++ ['\n']
  ++ "icl=".toList ++ fmt_d st.g_targets.usb_input_current_limit_ua ++ ['\n']
  ++ "auto_reapply=".toList ++ (if auto_reapply then "yes".toList else "no".toList) ++ ['\n']

/-- The function `proc_read(file, buf, count, ppos)`: the return value, the
bytes copied to the user buffer and the new `*ppos`.  `auto_reapply` is the
module parameter, `copy_ok` says whether `copy_to_user` copied every byte. -/
def proc_read (auto_reapply : Bool) (st : Store) (ppos count : Nat) (copy_ok : Bool) :
    Int × List Char × Nat :=
  if ppos ≠ 0 then (0, [], ppos)
  else
    let r := scnprintf [] 512 (read_text auto_reapply st)
    let len := if r.2 > count then count else r.2
    if !copy_ok then (-EFAULT, [], ppos)
    else ((len : Int), r.1.take len, ppos + len)

/-! ## chg_param_override: the notifier and the deferred reapply -/

/-- The event code `PSY_EVENT_PROP_CHANGED`, the first member of
`enum power_supply_notifier_events`. -/
def PSY_EVENT_PROP_CHANGED : Nat := 0

/-- The notifier return code `NOTIFY_DONE`. -/
def NOTIFY_DONE : Int := 0

/-- The notifier return code `NOTIFY_OK`. -/
def NOTIFY_OK : Int := 1

/-- The `struct delayed_work reapply_work` as the debounce token: `pending` is
the work's pending bit (`false` is idle), `timers_started` counts how often a
200 ms timer was armed for it. -/
structure delayed_work where
  pending : Bool
  timers_started : Nat
  deriving DecidableEq, Repr

/-- The kernel's `schedule_delayed_work(&reapply_work, delay)`: when the work is
already pending the call does nothing, otherwise it marks it pending and arms
the timer. -/
def schedule_delayed_work (w : delayed_work) : delayed_work :=
  if w.pending then w
  else { pending := true, timers_started := w.timers_started + 1 }

/-- The function `psy_event_handler(nb, event, data)`: the return value and the
debounce token afterwards. -/
def psy_event_handler (st : Store) (event : Nat) (psy : Option power_supply)
    (w : delayed_work) : Int × delayed_work :=
  match psy with
  | none => (NOTIFY_DONE, w)
  | some p =>
    if event ≠ PSY_EVENT_PROP_CHANGED then (NOTIFY_DONE, w)
    else
      match p.desc with
      | none => (NOTIFY_DONE, w)
      | some d =>
        match d.name with
        | none => (NOTIFY_DONE, w)
        | some name =>
          if name = st.target_batt ∨ name = st.target_usb then
            (NOTIFY_OK, schedule_delayed_work w)
          else (NOTIFY_DONE, w)

/-- The function `reapply_work_fn(work)`: the events of one execution. -/
def reapply_work_fn (sys : Subsys) (st : Store) : List Event :=
  [Event.mutex_lock] ++ (apply_targets_locked sys st).2 ++ [Event.mutex_unlock]

/-- The debounce token together with the events executed so far. -/
structure Sched where
  work : delayed_work
  trace : List Event
  deriving DecidableEq, Repr

/-- What reaches the reapplication scheduler: a notification from the
power-supply notifier chain, or the expiry of the work's timer. -/
inductive SchedInput where
  | notify (event : Nat) (psy : Option power_supply)
  | expire
  deriving DecidableEq, Repr

/-- One step of the scheduler.  A notification runs `psy_event_handler`; when
the timer of a pending work expires the workqueue clears the pending bit and
runs `reapply_work_fn`. -/
def sched_step (sys : Subsys) (st : Store) (s : Sched) (i : SchedInput) : Sched :=
  match i with
  | SchedInput.notify event psy =>
    { s with work := (psy_event_handler st event psy s.work).2 }
  | SchedInput.expire =>
    if s.work.pending then
      { work := { s.work with pending := false },
        trace := s.trace ++ reapply_work_fn sys st }
    else s

/-- The scheduler run over a sequence of inputs. -/
def sched_run (sys : Subsys) (st : Store) (s : Sched) (is : List SchedInput) : Sched :=
  is.foldl (sched_step sys st) s

end ChgParamOverride

namespace BattDesignOverride

open Kernel

/-! ## batt_design_override: invocations in flight -/

/-- The context `struct ps_getprop_args` as `entry_handler` stores it in
`ri->data`: the three pointer arguments, `val` being the address of the
caller's output union. -/
structure ps_getprop_ptrs where
  psy : Option power_supply
  psp : power_supply_property
  val : Option Nat

/-- The function `entry_handler(ri, regs)`: what it stores in `ri->data` from
x0, x1 and x2.  The `pr_info` is not modelled. -/
def entry_handler (x0 : Option power_supply) (x1 : power_supply_property) (x2 : Option Nat) :
    ps_getprop_ptrs :=
  { psy := x0, psp := x1, val := x2 }

/-- The value `maxactive` that `batt_override_init` sets for
`ps_getprop_kretprobe`: the number of `kretprobe_instance`s, each with its own
`data` area of `sizeof(struct ps_getprop_args)` bytes. -/
def ps_getprop_maxactive : Nat := 32

/-- The two invocations in flight. -/
inductive Inv where
  | A
  | B
  deriving DecidableEq, Repr

/-- One call of the hooked `power_supply_get_property`: its arguments (`val` is
the non-NULL address of the caller's output union), the value the driver
stores there, and the value it returns. -/
structure Call where
  psy : Option power_supply
  psp : power_supply_property
  val : Nat
  drv : power_supply_propval
  retval : Int

/-- The events of an invocation: the probed entry, the body of the hooked
function storing the driver's value, the probed return. -/
inductive PEvent where
  | entry (k : Inv)
  | body (k : Inv)
  | ret (k : Inv)
  deriving DecidableEq, Repr

/-- The invocation an event belongs to. -/
def PEvent.inv : PEvent → Inv
  | PEvent.entry k => k
  | PEvent.body k => k
  | PEvent.ret k => k

/-- The event sequence of one invocation. -/
def inv_events (k : Inv) : List PEvent :=
  [PEvent.entry k, PEvent.body k, PEvent.ret k]

/-- The state the handlers run in: the `kretprobe_instance` each invocation
holds (`none` when it holds none), the `data` area of every instance, and the
memory at the output addresses. -/
structure PState where
  inst : Inv → Option Nat
  data : Nat → ps_getprop_ptrs
  mem : Nat → power_supply_propval

/-- The instance the kretprobe core hands to a new invocation: the first of
the `maxactive` instances that no invocation in flight holds. -/
def free_instance (s : PState) : Option Nat :=
  (List.range ps_getprop_maxactive).find?
    (fun i => decide (s.inst Inv.A ≠ some i) && decide (s.inst Inv.B ≠ some i))

/-- One event.  At entry the kretprobe core takes a free instance and runs
`entry_handler` on it (with no free instance the probe is missed and no
handler runs); at return it runs `ret_handler` on the instance the invocation
holds, with the output union read from and written to the saved address, and
recycles the instance. -/
def pstep (p : Params) (calls : Inv → Call) (s : PState) (e : PEvent) : Outcome PState :=
  match e with
  | PEvent.entry k =>
    match free_instance s with
    | none => Outcome.done s
    | some i =>
      Outcome.done
        { s with
          inst := Function.update s.inst k (some i)
          data := Function.update s.data i
            (entry_handler (calls k).psy (calls k).psp (some (calls k).val)) }
  | PEvent.body k =>
    Outcome.done { s with mem := Function.update s.mem (calls k).val (calls k).drv }
  | PEvent.ret k =>
    match s.inst k with
    | none => Outcome.done s
    | some i =>
      let a := s.data i
      match ret_handler p { psy := a.psy, psp := a.psp, val := a.val.map s.mem }
          (calls k).retval with
      | Outcome.oops => Outcome.oops
      | Outcome.done r =>
        Outcome.done
          { s with
            inst := Function.update s.inst k none
            mem := match a.val, r with
              | some addr, some v => Function.update s.mem addr v
              | _, _ => s.mem }

/-- The events run in order, stopping at a fault. -/
def prun (p : Params) (calls : Inv → Call) : PState → List PEvent → Outcome PState
  | s, [] => Outcome.done s
  | s, e :: es =>
    match pstep p calls s e with
    | Outcome.oops => Outcome.oops
    | Outcome.done s1 => prun p calls s1 es

/-- What an invocation running on its own leaves in its output union. -/
def alone (p : Params) (c : Call) : Outcome (Option power_supply_propval) :=
  ret_handler p { psy := c.psy, psp := c.psp, val := some c.drv } c.retval

/-- All the ways of merging two sequences, keeping the order of each. -/
def interleavings {α : Type} : List α → List α → List (List α)
  | [], ys => [ys]
  | x :: xs, ys => go x xs (interleavings xs) ys
where
  /-- The merges of `x :: xs` with the list given last. -/
  go (x : α) (xs : List α) (tailMerges : List α → List (List α)) :
      List α → List (List α)
    | [] => [x :: xs]
    | y :: ys => (tailMerges (y :: ys)).map (fun t => x :: t)
        ++ (go x xs tailMerges ys).map (fun t => y :: t)

end BattDesignOverride

namespace ChgParamOverride

open Kernel

/-! ## Vocabulary of the statements about reading, the scheduler and the lock -/

/-- A store as the module can hold it: the names fit their arrays
(`target_batt[32]`, `target_usb[16]`) and the numeric targets read back are C
`int`s. -/
def store_wf (st : Store) : Prop :=
  st.target_batt.length ≤ 31 ∧ st.target_usb.length ≤ 15 ∧
  (-2147483648 ≤ st.g_targets.voltage_max_uv ∧ st.g_targets.voltage_max_uv ≤ 2147483647) ∧
  (-2147483648 ≤ st.g_targets.constant_charge_current_ua ∧
    st.g_targets.constant_charge_current_ua ≤ 2147483647) ∧
  (-2147483648 ≤ st.g_targets.term_current_ua ∧ st.g_targets.term_current_ua ≤ 2147483647) ∧
  (-2147483648 ≤ st.g_targets.usb_input_current_limit_ua ∧
    st.g_targets.usb_input_current_limit_ua ≤ 2147483647)

/-- The characters of a number printed with `%d`: the digits and the minus
sign. -/
def numchar (c : Char) : Bool := isdigit c || c == '-'

/-- A text followed by a key, `=` and a number printed with `%d`. -/
def numbered (pre key : List Char) (v : Int) : List Char :=
  (pre ++ key) ++ '=' :: fmt_d v

/-- The last line of the text of `proc_read`, with the newline that ends the
line before it. -/
def read_tail (auto_reapply : Bool) : List Char :=
  "\nauto_reapply=".toList ++ (if auto_reapply then "yes".toList else "no".toList) ++ ['\n']

/-- A notification that `psy_event_handler` acts on: a property change of a
device whose descriptor carries the name `target_batt` or `target_usb`. -/
def tracked (st : Store) (i : SchedInput) : Bool :=
  match i with
  | SchedInput.notify event psy =>
    decide (event = PSY_EVENT_PROP_CHANGED) &&
      (decide (psy_name psy = some st.target_batt) || decide (psy_name psy = some st.target_usb))
  | SchedInput.expire => false

/-- Whether an input is a notification. -/
def is_notify (i : SchedInput) : Bool :=
  match i with
  | SchedInput.notify _ _ => true
  | SchedInput.expire => false

/-- Whether every `power_supply_set_property` of a trace is issued while the
lock is not held; `held` says whether the lock is held when the trace starts. -/
def writes_unlocked : Bool → List Event → Bool
  | _, [] => true
  | _, Event.mutex_lock :: t => writes_unlocked true t
  | _, Event.mutex_unlock :: t => writes_unlocked false t
  | held, Event.set_property _ _ _ :: t => !held && writes_unlocked held t
  | held, _ :: t => writes_unlocked held t

/-- Whether every `power_supply_set_property` of a trace is issued while the
lock is held. -/
def writes_locked : Bool → List Event → Bool
  | _, [] => true
  | _, Event.mutex_lock :: t => writes_locked true t
  | _, Event.mutex_unlock :: t => writes_locked false t
  | held, Event.set_property _ _ _ :: t => held && writes_locked held t
  | held, _ :: t => writes_locked held t

/-- The property writes issued to the subsystem in a trace. -/
def property_writes (tr : List Event) : List (power_supply × power_supply_property × Int) :=
  tr.filterMap (fun e => match e with
    | Event.set_property p psp v => some (p, psp, v)
    | _ => none)

/-- Whether a trace takes or releases the lock. -/
def touches_lock (tr : List Event) : Bool :=
  tr.any (fun e => match e with
    | Event.mutex_lock => true
    | Event.mutex_unlock => true
    | _ => false)

/-- The store after `charge_limit=80`. -/
def store_limit : Store :=
  { store0 with g_targets := { store0.g_targets with charge_control_limit_percent := 80 } }

/-- A property-change notification for the device named `battery`. -/
def notify_battery : SchedInput :=
  SchedInput.notify PSY_EVENT_PROP_CHANGED
    (some { desc := some { name := some "battery".toList, set_property := true } })

/-- A property-change notification for a device named `wireless`. -/
def notify_other : SchedInput :=
  SchedInput.notify PSY_EVENT_PROP_CHANGED
    (some { desc := some { name := some "wireless".toList, set_property := true } })

end ChgParamOverride

namespace BattDesignOverride

open Kernel

/-- The state before either invocation: no instance held, every data area
holding a NULL context, every output union holding 0. -/
def pstate0 : PState :=
  { inst := fun _ => none
    data := fun _ => { psy := none, psp := power_supply_property.other 0, val := none }
    mem := fun _ => power_supply_propval.intval 0 }

/-- Invocation A reads CHARGE_FULL_DESIGN of `battery` into address 100,
invocation B reads it of `usb` into address 200. -/
def calls0 (k : Inv) : Call :=
  match k with
  | Inv.A =>
    { psy := some (mk_psy (some "battery".toList)),
      psp := power_supply_property.CHARGE_FULL_DESIGN, val := 100,
      drv := power_supply_propval.intval 4000000, retval := 0 }
  | Inv.B =>
    { psy := some (mk_psy (some "usb".toList)),
      psp := power_supply_property.CHARGE_FULL_DESIGN, val := 200,
      drv := power_supply_propval.intval 7, retval := 0 }

end BattDesignOverride

namespace ChgParamOverride

open Kernel

/-! ## Lemmas on `parse_kv`, on lines and on the loop of `proc_write` -/

theorem parse_kv_unrecognized (key val : List Char) (st : Store)
    (h : key ∉ recognized_keys) : parse_kv key val st = (-EINVAL, st) := by
  simp only [recognized_keys, List.mem_cons, List.mem_singleton, not_or, List.mem_nil_iff,
    not_false_eq_true, and_true] at h
  obtain ⟨h1, h2, h3, h4, h5, h6, h7, h8, h9, h10, h11, h12, h13⟩ := h
  simp only [parse_kv, h1, h2, h3, h4, h5, h6, h7, h8, h9, h10, h11, h12, h13, false_and,
    or_self, if_false]

theorem parse_kv_rc (key val : List Char) (st : Store) :
    (parse_kv key val st).1 = if valid_kv key val then 0 else -EINVAL := by
  by_cases hk : key ∈ recognized_keys
  · simp only [recognized_keys, List.mem_cons, List.mem_singleton, List.mem_nil_iff,
      or_false] at hk
    rcases hk with h | h | h | h | h | h | h | h | h | h | h | h | h <;> subst h <;>
      cases hv : kstrtoint val <;> simp [parse_kv, valid_kv, hv] <;> split_ifs <;> simp_all
  · rw [parse_kv_unrecognized key val st hk]
    simp [recognized_keys] at hk
    simp [valid_kv, hk]

theorem parse_kv_err_unchanged (key val : List Char) (st : Store)
    (h : (parse_kv key val st).1 ≠ 0) : (parse_kv key val st).2 = st := by
  by_cases hk : key ∈ recognized_keys
  · simp only [recognized_keys, List.mem_cons, List.mem_singleton, List.mem_nil_iff,
      or_false] at hk
    rcases hk with h | h | h | h | h | h | h | h | h | h | h | h | h <;> subst h <;>
      cases hv : kstrtoint val <;> simp [parse_kv, hv] at h ⊢ <;> split_ifs at h ⊢ <;> simp_all
  · rw [parse_kv_unrecognized key val st hk]

theorem text_lines_ne_nil (s : List Char) : text_lines s ≠ [] := by
  cases s with
  | nil => simp [text_lines]
  | cons c cs =>
    simp only [text_lines]
    split_ifs
    · simp
    · split <;> simp

theorem text_lines_unfold (s : List Char) :
    text_lines s = s.takeWhile (fun c => c != '\n') ::
      (match s.dropWhile (fun c => c != '\n') with
        | [] => []
        | _ :: r => text_lines r) := by
  induction s with
  | nil => simp [text_lines]
  | cons c cs ih =>
    by_cases hc : c = '\n'
    · subst hc
      simp [text_lines]
    · have hb : (c != '\n') = true := by simpa using hc
      simp only [text_lines, hc, if_false, List.takeWhile_cons, hb, if_true,
        List.dropWhile_cons]
      rw [ih]

theorem strsep_length (s r : List Char) (h : (strsep s).2 = some r) : r.length < s.length := by
  unfold strsep at h
  split at h
  · simp at h
  · rename_i x rest heq
    simp only [Option.some.injEq] at h
    subst h
    have := (List.dropWhile_sublist (l := s) (fun c => c != '\n')).length_le
    rw [heq] at this
    simp at this
    omega

theorem strsep_lines (s : List Char) :
    text_lines s = (strsep s).1 :: lines_of (strsep s).2 := by
  rw [text_lines_unfold]
  unfold strsep
  split
  · rename_i heq
    rw [List.dropWhile_eq_nil_iff] at heq
    simp only [lines_of, List.cons.injEq, and_true]
    exact List.takeWhile_eq_self_iff.mpr heq
  · simp [lines_of]

theorem proc_write_loop_eq (fuel : Nat) :
    ∀ (line : Option (List Char)) (st : Store),
      (match line with | none => 0 | some s => s.length) < fuel →
      proc_write_loop fuel line st = some (run_lines (lines_of line) st) := by
  induction fuel with
  | zero => intro line st h; omega
  | succ n ih =>
    intro line st h
    match line with
    | none => simp [proc_write_loop, lines_of, run_lines]
    | some [] => simp [proc_write_loop, lines_of, run_lines, text_lines, strim, skip_spaces]
    | some (c :: cs) =>
      have hlen : (match (strsep (c :: cs)).2 with | none => 0 | some s => s.length) < n := by
        cases hr : (strsep (c :: cs)).2 with
        | none => simp at h ⊢; omega
        | some r =>
          have := strsep_length (c :: cs) r hr
          simp at h this ⊢
          omega
      simp only [proc_write_loop, lines_of]
      rw [strsep_lines (c :: cs)]
      simp only [run_lines]
      split_ifs with hb
      · exact ih _ _ hlen
      · cases hs : split_eq (strim (strsep (c :: cs)).1) with
        | none => simp
        | some kv =>
          obtain ⟨key, val⟩ := kv
          simp only
          split_ifs with hrc
          · rfl
          · exact ih _ _ hlen


theorem strim_eq (s : List Char) : strim s = (s.rdropWhile isspace).dropWhile isspace := by
  simp [strim, skip_spaces, List.rdropWhile]

theorem strim_concat_space (l : List Char) (c : Char) (hc : isspace c = true) :
    strim (l ++ [c]) = strim l := by
  rw [strim_eq, strim_eq, List.rdropWhile_concat_pos _ _ _ hc]

theorem rdropWhile_cons (p : Char → Bool) (c : Char) (l : List Char) :
    (c :: l).rdropWhile p =
      if l.rdropWhile p = [] then (if p c then [] else [c]) else c :: l.rdropWhile p := by
  induction l using List.reverseRecOn with
  | nil =>
    by_cases h : p c = true
    · simp [List.rdropWhile, h]
    · simp [List.rdropWhile, h]
  | append_singleton t a ih =>
    by_cases ha : p a = true
    · rw [← List.cons_append, List.rdropWhile_concat_pos _ _ _ ha,
        List.rdropWhile_concat_pos _ _ _ ha]
      exact ih
    · rw [← List.cons_append, List.rdropWhile_concat_neg _ _ _ ha,
        List.rdropWhile_concat_neg _ _ _ ha]
      simp

theorem strim_cons_space (l : List Char) (c : Char) (hc : isspace c = true) :
    strim (c :: l) = strim l := by
  rw [strim_eq, strim_eq, rdropWhile_cons]
  split_ifs with h
  · simp [h]
  · simp [List.dropWhile_cons, hc]

theorem run_lines_congr (ls ls' : List (List Char))
    (h : List.Forall₂ (fun a b => strim a = strim b) ls ls') (st : Store) :
    run_lines ls st = run_lines ls' st := by
  induction h generalizing st with
  | nil => rfl
  | cons hab _ ih =>
    simp only [run_lines, hab]
    split_ifs
    · exact ih st
    · split
      · rfl
      · simp only [ih]

theorem run_lines_append_blank (ls : List (List Char)) (b : List Char) (hb : strim b = [])
    (st : Store) : run_lines (ls ++ [b]) st = run_lines ls st := by
  induction ls generalizing st with
  | nil => simp [run_lines, hb]
  | cons l ls ih =>
    simp only [List.cons_append, run_lines]
    split_ifs
    · exact ih st
    · cases split_eq (strim l) with
      | none => rfl
      | some kv => simp only [List.append_eq, ih]

theorem text_lines_cons (c : Char) (cs : List Char) :
    text_lines (c :: cs) =
      if c = '\n' then [] :: text_lines cs
      else
        match text_lines cs with
        | [] => [[c]]
        | l :: ls => (c :: l) :: ls := rfl

theorem text_lines_concat (s : List Char) (c : Char) :
    ∃ init last, text_lines s = init ++ [last] ∧
      text_lines (s ++ [c]) =
        if c = '\n' then init ++ [last] ++ [[]] else init ++ [last ++ [c]] := by
  induction s with
  | nil =>
    refine ⟨[], [], by simp [text_lines], ?_⟩
    by_cases hc : c = '\n' <;> simp [text_lines, hc]
  | cons a s ih =>
    obtain ⟨init, last, h1, h2⟩ := ih
    rw [List.cons_append, text_lines_cons a s, text_lines_cons a (s ++ [c]), h1, h2]
    by_cases ha : a = '\n'
    · refine ⟨[] :: init, last, by simp [ha], ?_⟩
      by_cases hc : c = '\n' <;> simp [ha, hc]
    · cases init with
      | nil =>
        refine ⟨[], a :: last, by simp [ha], ?_⟩
        by_cases hc : c = '\n' <;> simp [ha, hc]
      | cons i is =>
        refine ⟨(a :: i) :: is, last, by simp [ha], ?_⟩
        by_cases hc : c = '\n' <;> simp [ha, hc]

theorem run_text_lines_concat_space (s : List Char) (c : Char) (hc : isspace c = true)
    (st : Store) : run_lines (text_lines (s ++ [c])) st = run_lines (text_lines s) st := by
  obtain ⟨init, last, h1, h2⟩ := text_lines_concat s c
  rw [h1, h2]
  split_ifs with h
  · exact run_lines_append_blank _ _ (by simp [strim, skip_spaces]) st
  · apply run_lines_congr
    apply List.rel_append
    · exact List.forall₂_same.mpr (fun _ _ => rfl)
    · exact List.Forall₂.cons (strim_concat_space _ _ hc) List.Forall₂.nil

theorem run_text_lines_rdropWhile (s : List Char) (st : Store) :
    run_lines (text_lines (s.rdropWhile isspace)) st = run_lines (text_lines s) st := by
  induction s using List.reverseRecOn with
  | nil => simp [List.rdropWhile]
  | append_singleton t c ih =>
    by_cases hc : isspace c = true
    · rw [List.rdropWhile_concat_pos _ _ _ hc, ih, run_text_lines_concat_space _ _ hc]
    · rw [List.rdropWhile_concat_neg _ _ _ hc]

theorem run_text_lines_dropWhile (s : List Char) (st : Store) :
    run_lines (text_lines (s.dropWhile isspace)) st = run_lines (text_lines s) st := by
  induction s with
  | nil => simp
  | cons c cs ih =>
    by_cases hc : isspace c = true
    · rw [List.dropWhile_cons, if_pos hc, ih]
      by_cases hn : c = '\n'
      · simp [text_lines, hn, run_lines, strim, skip_spaces]
      · simp only [text_lines, hn, if_false]
        have hne := text_lines_ne_nil cs
        cases hts : text_lines cs with
        | nil => exact absurd hts hne
        | cons l ls =>
          simp only [run_lines, strim_cons_space _ _ hc]
    · simp [List.dropWhile_cons, hc]

theorem run_text_lines_strim (s : List Char) (st : Store) :
    run_lines (text_lines (strim s)) st = run_lines (text_lines s) st := by
  rw [strim_eq, run_text_lines_dropWhile, run_text_lines_rdropWhile]


theorem commit_line_blank (l : List Char) (st : Store) (h : blank_line l = true) :
    commit_line l st = st := by
  simp only [blank_line, decide_eq_true_eq] at h
  simp [commit_line, h, split_eq]

theorem commit_lines_blank (ls : List (List Char)) (st : Store)
    (h : ∀ l ∈ ls, blank_line l = true) : commit_lines ls st = st := by
  induction ls generalizing st with
  | nil => rfl
  | cons l ls ih =>
    simp only [commit_lines, List.foldl_cons]
    rw [commit_line_blank l st (h l (List.mem_cons_self _ _))]
    exact ih st (fun x hx => h x (List.mem_cons_of_mem _ hx))

theorem run_lines_cons_ok (l : List Char) (ls : List (List Char)) (st : Store)
    (h : blank_line l = true ∨ valid_line l = true) :
    run_lines (l :: ls) st = run_lines ls (commit_line l st) := by
  rcases h with h | h
  · rw [commit_line_blank l st h]
    simp only [blank_line, decide_eq_true_eq] at h
    simp [run_lines, h]
  · simp only [run_lines]
    unfold valid_line at h
    unfold commit_line
    cases hs : split_eq (strim l) with
    | none => simp [hs] at h
    | some kv =>
      obtain ⟨key, val⟩ := kv
      simp only [hs] at h
      have hrc := parse_kv_rc key val st
      rw [h] at hrc
      simp only [if_true] at hrc
      have hne : strim l ≠ [] := by
        intro h0
        rw [h0] at hs
        simp [split_eq] at hs
      simp [hne, hrc]

theorem run_lines_valid (ls : List (List Char)) (st : Store)
    (h : ∀ l ∈ ls, blank_line l = true ∨ valid_line l = true) :
    run_lines ls st = (0, commit_lines ls st) := by
  induction ls generalizing st with
  | nil => rfl
  | cons l ls ih =>
    rw [run_lines_cons_ok l ls st (h l (List.mem_cons_self _ _))]
    exact ih _ (fun x hx => h x (List.mem_cons_of_mem _ hx))

theorem run_lines_bad (bad : List Char) (post : List (List Char)) (st : Store)
    (hb : blank_line bad = false) (hv : valid_line bad = false) :
    run_lines (bad :: post) st = (-EINVAL, st) := by
  simp only [blank_line, decide_eq_false_iff_not] at hb
  simp only [run_lines, hb, if_false]
  unfold valid_line at hv
  cases hs : split_eq (strim bad) with
  | none => rfl
  | some kv =>
    obtain ⟨key, val⟩ := kv
    simp only [hs] at hv
    have hrc := parse_kv_rc key val st
    rw [hv] at hrc
    have hne : (parse_kv key val st).1 ≠ 0 := by
      rw [hrc]; decide
    have hst := parse_kv_err_unchanged key val st hne
    simp only [hne, ne_eq, not_false_eq_true, if_true]
    rw [Prod.ext_iff]
    exact ⟨by simpa using hrc, hst⟩

theorem run_lines_invalid (pre : List (List Char)) (bad : List Char) (post : List (List Char))
    (st : Store) (hpre : ∀ l ∈ pre, blank_line l = true ∨ valid_line l = true)
    (hb : blank_line bad = false) (hv : valid_line bad = false) :
    run_lines (pre ++ bad :: post) st = (-EINVAL, commit_lines pre st) := by
  induction pre generalizing st with
  | nil => exact run_lines_bad bad post st hb hv
  | cons l ls ih =>
    rw [List.cons_append, run_lines_cons_ok l _ st (hpre l (List.mem_cons_self _ _))]
    exact ih _ (fun x hx => hpre x (List.mem_cons_of_mem _ hx))

/-- A list with an element failing `p` splits at the first such element. -/
theorem first_failing {α : Type} (p : α → Bool) (ls : List α) (h : ∃ l ∈ ls, p l = false) :
    ∃ pre bad post, ls = pre ++ bad :: post ∧ (∀ l ∈ pre, p l = true) ∧ p bad = false := by
  induction ls with
  | nil => simp at h
  | cons a ls ih =>
    by_cases ha : p a = true
    · have h' : ∃ l ∈ ls, p l = false := by
        obtain ⟨l, hl, hp⟩ := h
        rcases List.mem_cons.mp hl with rfl | hl'
        · rw [ha] at hp; cases hp
        · exact ⟨l, hl', hp⟩
      obtain ⟨pre, bad, post, h1, h2, h3⟩ := ih h'
      refine ⟨a :: pre, bad, post, by simp [h1], ?_, h3⟩
      intro l hl
      rcases List.mem_cons.mp hl with rfl | hl'
      · exact ha
      · exact h2 l hl'
    · exact ⟨[], a, ls, rfl, by simp, by simpa using ha⟩

/-- The loop of `proc_write` on the kernel copy of the buffer, in terms of the
lines of the text. -/
theorem proc_write_loop_lines (s : List Char) (st : Store) :
    proc_write_loop ((strim s).length + 1) (some (strim s)) st
      = some (run_lines (text_lines s) st) := by
  rw [proc_write_loop_eq _ (some (strim s)) st (by simp)]
  simp only [lines_of]
  rw [run_text_lines_strim]

theorem apply_targets_locked_ret (sys : Subsys) (st : Store) :
    (apply_targets_locked sys st).1 = 0 := rfl

theorem apply_passes_apply_one (sys : Subsys) (p : power_supply) (psp : power_supply_property)
    (v : Int) : apply_passes (apply_one sys p psp v) = [] := by
  unfold apply_one
  split_ifs
  · unfold write_psy_int
    simp only
    cases p.desc with
    | none => simp [apply_passes]
    | some d => by_cases h : d.set_property = true <;> simp [apply_passes, h]
  · rfl

theorem apply_passes_append (a b : List Event) :
    apply_passes (a ++ b) = apply_passes a ++ apply_passes b := by
  simp [apply_passes]

theorem apply_passes_apply (sys : Subsys) (st : Store) :
    apply_passes (apply_targets_locked sys st).2 = [st] := by
  unfold apply_targets_locked
  simp only [apply_passes_append]
  cases sys.power_supply_get_by_name st.target_batt <;>
    cases sys.power_supply_get_by_name st.target_usb <;>
    simp [apply_passes_append, apply_passes_apply_one] <;> simp [apply_passes]


theorem write_attempts_append (a b : List Event) :
    write_attempts (a ++ b) = write_attempts a ++ write_attempts b := by
  simp [write_attempts]

theorem write_attempts_apply_one (sys : Subsys) (p : power_supply)
    (psp : power_supply_property) (v : Int) (hv : 0 ≤ v) :
    write_attempts (apply_one sys p psp v) = [(p, psp, v)].filter (fun x => x.2.2 ≠ 0) := by
  unfold apply_one
  by_cases h : v > 0
  · have hne : v ≠ 0 := by omega
    simp only [h, if_true, write_attempts_append]
    have h1 : write_attempts (write_psy_int sys (some p) psp v).2 = [] := by
      unfold write_psy_int
      simp only
      cases p.desc with
      | none => simp [write_attempts]
      | some d => by_cases hs : d.set_property = true <;> simp [write_attempts, hs]
    rw [h1]
    simp [write_attempts, hne]
  · have h0 : v = 0 := by omega
    simp [h0, write_attempts]


theorem proc_write_ok_eq (PAGE_SIZE : Nat) (sys : Subsys) (buf : List Char) (st : Store)
    (hlen : 1 ≤ buf.length ∧ buf.length ≤ PAGE_SIZE) :
    proc_write PAGE_SIZE sys true true buf st =
      some (if (run_lines (text_lines (cstr buf)) st).1 = 0 then
          ((buf.length : Int), (run_lines (text_lines (cstr buf)) st).2,
            [Event.mutex_lock]
              ++ (apply_targets_locked sys (run_lines (text_lines (cstr buf)) st).2).2
              ++ [Event.mutex_unlock])
        else
          ((run_lines (text_lines (cstr buf)) st).1, (run_lines (text_lines (cstr buf)) st).2,
            [Event.mutex_lock, Event.mutex_unlock])) := by
  have h1 : ¬ (buf.length = 0 ∨ buf.length > PAGE_SIZE) := by omega
  unfold proc_write
  simp only [h1, if_false, Bool.not_true, Bool.false_eq_true, proc_write_loop_lines,
    apply_targets_locked_ret, ne_eq, not_true_eq_false]
  split_ifs with h <;> rfl

theorem text_lines_no_newline (s : List Char) (h : ∀ c ∈ s, c ≠ '\n') : text_lines s = [s] := by
  induction s with
  | nil => rfl
  | cons c cs ih =>
    have hc : c ≠ '\n' := h c (List.mem_cons_self _ _)
    rw [text_lines_cons, if_neg hc, ih (fun x hx => h x (List.mem_cons_of_mem _ hx))]

theorem rdropWhile_append_keep (q : Char → Bool) (p : List Char) (e : Char) (he : q e = false)
    (w : List Char) : (p ++ e :: w).rdropWhile q = p ++ e :: w.rdropWhile q := by
  induction w using List.reverseRecOn with
  | nil =>
    have : p ++ [e] = p ++ [e] := rfl
    simp only [List.rdropWhile_nil]
    exact List.rdropWhile_concat_neg _ _ _ (by simp [he])
  | append_singleton t a ih =>
    have hassoc : p ++ e :: (t ++ [a]) = (p ++ e :: t) ++ [a] := by simp
    rw [hassoc]
    by_cases ha : q a = true
    · rw [List.rdropWhile_concat_pos _ _ _ ha, List.rdropWhile_concat_pos _ _ _ ha, ih]
    · rw [List.rdropWhile_concat_neg _ _ _ ha, List.rdropWhile_concat_neg _ _ _ ha]
      simp

theorem cstr_no_newline (v : List Char) (h : ∀ c ∈ v, c ≠ '\n') : ∀ c ∈ cstr v, c ≠ '\n' := by
  intro c hc
  exact h c ((List.takeWhile_sublist _).subset hc)

theorem run_pd_verifed_disable (v : List Char) (hv : ∀ c ∈ v, c ≠ '\n') (st : Store) :
    run_lines (text_lines (cstr ("pd_verifed_disable=".toList ++ v))) st
      = (0, { st with g_targets := { st.g_targets with pd_verifed_enabled := false } }) := by
  have hc : cstr ("pd_verifed_disable=".toList ++ v) = "pd_verifed_disable=".toList ++ cstr v := by
    simp [cstr, List.takeWhile_cons]
  have hnl : ∀ c ∈ "pd_verifed_disable=".toList ++ cstr v, c ≠ '\n' := by
    intro c hc
    rcases List.mem_append.mp hc with h | h
    · intro h0
      subst h0
      revert h
      decide
    · exact cstr_no_newline v hv c h
  rw [hc, text_lines_no_newline _ hnl]
  have hstrim : strim ("pd_verifed_disable=".toList ++ cstr v)
      = "pd_verifed_disable=".toList ++ (cstr v).rdropWhile isspace := by
    rw [strim_eq]
    have := rdropWhile_append_keep isspace "pd_verifed_disable".toList '=' (by decide) (cstr v)
    have e1 : "pd_verifed_disable=".toList ++ cstr v
        = "pd_verifed_disable".toList ++ '=' :: cstr v := by simp
    rw [e1, this]
    simp [List.dropWhile_cons, isspace]
  have hsplit : split_eq ("pd_verifed_disable=".toList ++ (cstr v).rdropWhile isspace)
      = some ("pd_verifed_disable".toList, (cstr v).rdropWhile isspace) := by
    simp [split_eq, List.dropWhile_cons, List.takeWhile_cons]
  simp only [run_lines, hstrim, hsplit]
  simp [parse_kv]

end ChgParamOverride

namespace ChgParamOverride

open Kernel

theorem key_fields_unrecognized (key : List Char) (h : key ∉ recognized_keys) :
    key_fields key = [] := by
  simp only [recognized_keys, List.mem_cons, List.mem_singleton, not_or, List.mem_nil_iff,
    not_false_eq_true, and_true] at h
  obtain ⟨h1, h2, h3, h4, h5, h6, h7, h8, h9, h10, h11, h12, h13⟩ := h
  simp only [key_fields, h1, h2, h3, h4, h5, h6, h7, h8, h9, h10, h11, h12, h13, or_self,
    if_false]

/-- A keyed update leaves alone every part of the store its key does not set. -/
theorem parse_kv_frame (key val : List Char) (st : Store) (f : Field)
    (hf : f ∉ key_fields key) : read_field f (parse_kv key val st).2 = read_field f st := by
  by_cases hk : key ∈ recognized_keys
  · simp only [recognized_keys, List.mem_cons, List.mem_singleton, List.mem_nil_iff,
      or_false] at hk
    rcases hk with h | h | h | h | h | h | h | h | h | h | h | h | h <;> subst h <;>
      cases hv : kstrtoint val <;> simp only [parse_kv, hv, Option.isSome_none,
        Option.isSome_some, Option.getD_some, Bool.false_eq_true, and_false, and_true,
        if_false, if_true, true_or, or_true, true_and] <;> (try simp) <;>
      (try split_ifs) <;> cases f <;>
      first
        | rfl
        | exact absurd hf (by decide)
  · rw [parse_kv_unrecognized key val st hk]

/-- What a valid keyed update leaves in the parts its key sets does not depend
on the store it is applied to. -/
theorem parse_kv_sets (key val : List Char) (st st' : Store) (f : Field)
    (hf : f ∈ key_fields key) (hv : valid_kv key val = true) :
    read_field f (parse_kv key val st).2 = read_field f (parse_kv key val st').2 := by
  by_cases hk : key ∈ recognized_keys
  · simp only [recognized_keys, List.mem_cons, List.mem_singleton, List.mem_nil_iff,
      or_false] at hk
    rcases hk with h | h | h | h | h | h | h | h | h | h | h | h | h <;> subst h <;>
      cases hp : kstrtoint val <;> simp [valid_kv, hp] at hv <;>
      simp only [parse_kv, hp, Option.isSome_none,
        Option.isSome_some, Option.getD_some, Bool.false_eq_true, and_false, and_true,
        if_false, if_true, true_or, or_true, true_and] <;> (try simp [hv]) <;>
      cases f <;>
      first
        | rfl
        | exact absurd hf (by decide)
  · rw [key_fields_unrecognized key hk] at hf
    simp at hf

theorem commit_line_frame (l : List Char) (st : Store) (f : Field)
    (h : line_sets l f = false) : read_field f (commit_line l st) = read_field f st := by
  unfold line_sets at h
  unfold commit_line
  cases hs : split_eq (strim l) with
  | none => rfl
  | some kv =>
    obtain ⟨key, val⟩ := kv
    simp only [hs, decide_eq_false_iff_not] at h
    exact parse_kv_frame key val st f h

theorem commit_lines_frame (ls : List (List Char)) (st : Store) (f : Field)
    (h : ∀ l ∈ ls, line_sets l f = false) :
    read_field f (commit_lines ls st) = read_field f st := by
  induction ls generalizing st with
  | nil => rfl
  | cons l ls ih =>
    simp only [commit_lines, List.foldl_cons]
    have := ih (commit_line l st) (fun x hx => h x (List.mem_cons_of_mem _ hx))
    simp only [commit_lines] at this
    rw [this, commit_line_frame l st f (h l (List.mem_cons_self _ _))]

theorem commit_line_sets (l : List Char) (st st' : Store) (f : Field)
    (h : line_sets l f = true) (hv : valid_line l = true) :
    read_field f (commit_line l st) = read_field f (commit_line l st') := by
  unfold line_sets at h
  unfold valid_line at hv
  unfold commit_line
  cases hs : split_eq (strim l) with
  | none => simp [hs] at h
  | some kv =>
    obtain ⟨key, val⟩ := kv
    simp only [hs, decide_eq_true_eq] at h hv
    exact parse_kv_sets key val st st' f h hv

/-- The last line that sets a part of the store decides that part. -/
theorem commit_lines_last_wins (pre : List (List Char)) (l : List Char)
    (post : List (List Char)) (st st' : Store) (f : Field)
    (hl : line_sets l f = true) (hv : valid_line l = true)
    (hpost : ∀ x ∈ post, line_sets x f = false) :
    read_field f (commit_lines (pre ++ l :: post) st) = read_field f (commit_line l st') := by
  have h1 : commit_lines (pre ++ l :: post) st
      = commit_lines post (commit_line l (commit_lines pre st)) := by
    simp [commit_lines, List.foldl_append]
  rw [h1, commit_lines_frame post _ f hpost]
  exact commit_line_sets l _ _ f hl hv

theorem line_sets_blank (l : List Char) (f : Field) (h : blank_line l = true) :
    line_sets l f = false := by
  simp only [blank_line, decide_eq_true_eq] at h
  simp [line_sets, h, split_eq]

theorem cstr_eq_self (buf : List Char) (h : ∀ c ∈ buf, c.toNat ≠ 0) : cstr buf = buf := by
  unfold cstr
  rw [List.takeWhile_eq_self_iff]
  intro c hc
  simpa using h c hc

end ChgParamOverride

namespace ChgParamOverride

open Kernel

/-! ## The control channel: C1, C2, C3 -/

/-- C1 (amended): when the text of the buffer has a line that is neither blank
nor a valid `key=value`, `proc_write` returns a negative status and runs no
apply pass; the lines before the first such line have been committed in order
and stay committed, so the store is the one before the call exactly when
those lines change nothing (in particular when they are all blank), or when
the write was refused before parsing. -/
theorem proc_write_invalid_line (PAGE_SIZE : Nat) (sys : Subsys) (kzalloc_ok copy_ok : Bool)
    (buf : List Char) (st : Store)
    (hbad : ∃ l ∈ text_lines (cstr buf), blank_line l = false ∧ valid_line l = false) :
    ∃ (pre : List (List Char)) (bad : List Char) (post : List (List Char))
      (rc : Int) (st1 : Store) (tr : List Event),
      text_lines (cstr buf) = pre ++ bad :: post ∧
      (∀ l ∈ pre, blank_line l = true ∨ valid_line l = true) ∧
      (blank_line bad = false ∧ valid_line bad = false) ∧
      proc_write PAGE_SIZE sys kzalloc_ok copy_ok buf st = some (rc, st1, tr) ∧
      rc < 0 ∧ apply_passes tr = [] ∧
      (1 ≤ buf.length ∧ buf.length ≤ PAGE_SIZE ∧ kzalloc_ok = true ∧ copy_ok = true →
        rc = -EINVAL ∧ st1 = commit_lines pre st ∧
        tr = [Event.mutex_lock, Event.mutex_unlock]) ∧
      (¬ (1 ≤ buf.length ∧ buf.length ≤ PAGE_SIZE ∧ kzalloc_ok = true ∧ copy_ok = true) →
        st1 = st) ∧
      ((∀ l ∈ pre, blank_line l = true) → st1 = st) := by
  have hbad' : ∃ l ∈ text_lines (cstr buf), (blank_line l || valid_line l) = false := by
    obtain ⟨l, hl, h1, h2⟩ := hbad
    exact ⟨l, hl, by simp [h1, h2]⟩
  obtain ⟨pre, bad, post, hsplit, hpre, hb⟩ :=
    first_failing (fun l => blank_line l || valid_line l) _ hbad'
  have hpre' : ∀ l ∈ pre, blank_line l = true ∨ valid_line l = true := by
    intro l hl
    simpa using hpre l hl
  have hb' : blank_line bad = false ∧ valid_line bad = false := by
    simpa using hb
  have hrun := run_lines_invalid pre bad post st hpre' hb'.1 hb'.2
  by_cases hok : 1 ≤ buf.length ∧ buf.length ≤ PAGE_SIZE ∧ kzalloc_ok = true ∧ copy_ok = true
  · obtain ⟨h1, h2, h3, h4⟩ := hok
    subst h3 h4
    refine ⟨pre, bad, post, -EINVAL, commit_lines pre st,
      [Event.mutex_lock, Event.mutex_unlock], hsplit, hpre', hb', ?_, by decide, by
        simp [apply_passes], fun _ => ⟨rfl, rfl, rfl⟩, fun h => absurd ⟨h1, h2, rfl, rfl⟩ h,
      fun h => commit_lines_blank pre st h⟩
    rw [proc_write_ok_eq PAGE_SIZE sys buf st ⟨h1, h2⟩, hsplit, hrun]
    simp [EINVAL]
  · have hres : ∃ rc, rc < 0 ∧
        proc_write PAGE_SIZE sys kzalloc_ok copy_ok buf st = some (rc, st, []) := by
      unfold proc_write
      by_cases hl : buf.length = 0 ∨ buf.length > PAGE_SIZE
      · exact ⟨-EINVAL, by decide, by simp only [hl, if_true]⟩
      · cases kzalloc_ok with
        | false => exact ⟨-ENOMEM, by decide, by simp only [hl, if_false, Bool.not_false, if_true]⟩
        | true =>
          cases copy_ok with
          | false =>
            exact ⟨-EFAULT, by decide, by
              simp only [hl, if_false, Bool.not_true, Bool.false_eq_true, Bool.not_false,
                if_true]⟩
          | true => exact absurd ⟨by omega, by omega, rfl, rfl⟩ hok
    obtain ⟨rc, hneg, hpw⟩ := hres
    exact ⟨pre, bad, post, rc, st, [], hsplit, hpre', hb', hpw, hneg, rfl,
      fun h => absurd h hok, fun _ => rfl, fun _ => rfl⟩

/-- C1, as stated, fails: the write `voltage_max=4460000`, `charge_limit=150`
has an invalid second line and returns `-EINVAL`, yet the store afterwards holds
`voltage_max_uv = 4460000` and differs from the store before the call. -/
theorem proc_write_partial_commit :
    "charge_limit=150".toList ∈ text_lines (cstr buf_partial) ∧
    blank_line "charge_limit=150".toList = false ∧
    valid_line "charge_limit=150".toList = false ∧
    proc_write 4096 sys0 true true buf_partial store0
      = some (-EINVAL,
          { store0 with g_targets := { store0.g_targets with voltage_max_uv := 4460000 } },
          [Event.mutex_lock, Event.mutex_unlock]) ∧
    ({ store0 with g_targets := { store0.g_targets with voltage_max_uv := 4460000 } } : Store)
      ≠ store0 := by
  decide

/-- C1 (amended), at the write `voltage_max=4460000`, `charge_limit=150`. -/
theorem proc_write_invalid_line_witness :
    (∃ l ∈ text_lines (cstr buf_partial), blank_line l = false ∧ valid_line l = false) ∧
    ∃ (pre : List (List Char)) (bad : List Char) (post : List (List Char))
      (rc : Int) (st1 : Store) (tr : List Event),
      text_lines (cstr buf_partial) = pre ++ bad :: post ∧
      (∀ l ∈ pre, blank_line l = true ∨ valid_line l = true) ∧
      (blank_line bad = false ∧ valid_line bad = false) ∧
      proc_write 4096 sys0 true true buf_partial store0 = some (rc, st1, tr) ∧
      rc < 0 ∧ apply_passes tr = [] ∧
      (1 ≤ buf_partial.length ∧ buf_partial.length ≤ 4096 ∧ true = true ∧ true = true →
        rc = -EINVAL ∧ st1 = commit_lines pre store0 ∧
        tr = [Event.mutex_lock, Event.mutex_unlock]) ∧
      (¬ (1 ≤ buf_partial.length ∧ buf_partial.length ≤ 4096 ∧ true = true ∧ true = true) →
        st1 = store0) ∧
      ((∀ l ∈ pre, blank_line l = true) → st1 = store0) :=
  ⟨⟨"charge_limit=150".toList, by decide, by decide, by decide⟩,
   proc_write_invalid_line 4096 sys0 true true buf_partial store0
    ⟨"charge_limit=150".toList, by decide, by decide, by decide⟩⟩

/-- C2: a write of 1..PAGE_SIZE bytes whose lines (of the text up to the first
NUL byte, which is the whole buffer when it has none) are all blank or valid
`key=value` pairs returns the byte count, leaves the store that results from
applying the lines in order, so that each part of the store holds what the
last line setting it asks for, and runs exactly one apply pass, on that final
store, between taking and releasing the lock, for every behaviour of the
subsystem. -/
theorem proc_write_valid_batch (PAGE_SIZE : Nat) (sys : Subsys) (buf : List Char) (st : Store)
    (hlen : 1 ≤ buf.length ∧ buf.length ≤ PAGE_SIZE)
    (hvalid : ∀ l ∈ text_lines (cstr buf), blank_line l = true ∨ valid_line l = true) :
    ∃ tr : List Event,
      proc_write PAGE_SIZE sys true true buf st
        = some ((buf.length : Int), commit_lines (text_lines (cstr buf)) st, tr) ∧
      apply_passes tr = [commit_lines (text_lines (cstr buf)) st] ∧
      tr = [Event.mutex_lock]
        ++ (apply_targets_locked sys (commit_lines (text_lines (cstr buf)) st)).2
        ++ [Event.mutex_unlock] ∧
      (∀ (pre : List (List Char)) (l : List Char) (post : List (List Char)) (f : Field)
          (st1 : Store),
        text_lines (cstr buf) = pre ++ l :: post → line_sets l f = true →
        (∀ x ∈ post, line_sets x f = false) →
        read_field f (commit_lines (text_lines (cstr buf)) st)
          = read_field f (commit_line l st1)) ∧
      ((∀ c ∈ buf, c.toNat ≠ 0) → cstr buf = buf) := by
  refine ⟨_, ?_, ?_, rfl, ?_, cstr_eq_self buf⟩
  · rw [proc_write_ok_eq PAGE_SIZE sys buf st hlen, run_lines_valid _ st hvalid]
    simp
  · rw [apply_passes_append, apply_passes_append, apply_passes_apply]
    rfl
  · intro pre l post f st1 hsplit hl hpost
    have hmem : l ∈ text_lines (cstr buf) := by
      rw [hsplit]
      simp
    have hv : valid_line l = true := by
      rcases hvalid l hmem with hb | hv
      · rw [line_sets_blank l f hb] at hl
        cases hl
      · exact hv
    rw [hsplit]
    exact commit_lines_last_wins pre l post st st1 f hl hv hpost

/-- C2, at the write `voltage_max=4400000`, `voltage_max=4460000`, an empty line,
`icl=1500000`: 52 bytes accepted, the later `voltage_max` is the one stored. -/
theorem proc_write_valid_batch_witness :
    (1 ≤ buf_valid.length ∧ buf_valid.length ≤ 4096) ∧
    (∀ l ∈ text_lines (cstr buf_valid), blank_line l = true ∨ valid_line l = true) ∧
    commit_lines (text_lines (cstr buf_valid)) store0
      = { store0 with g_targets := { store0.g_targets with
            voltage_max_uv := 4460000, usb_input_current_limit_ua := 1500000 } } ∧
    ∃ tr : List Event,
      proc_write 4096 sys0 true true buf_valid store0
        = some ((buf_valid.length : Int), commit_lines (text_lines (cstr buf_valid)) store0, tr) ∧
      apply_passes tr = [commit_lines (text_lines (cstr buf_valid)) store0] ∧
      tr = [Event.mutex_lock]
        ++ (apply_targets_locked sys0 (commit_lines (text_lines (cstr buf_valid)) store0)).2
        ++ [Event.mutex_unlock] ∧
      (∀ (pre : List (List Char)) (l : List Char) (post : List (List Char)) (f : Field)
          (st1 : Store),
        text_lines (cstr buf_valid) = pre ++ l :: post → line_sets l f = true →
        (∀ x ∈ post, line_sets x f = false) →
        read_field f (commit_lines (text_lines (cstr buf_valid)) store0)
          = read_field f (commit_line l st1)) ∧
      ((∀ c ∈ buf_valid, c.toNat ≠ 0) → cstr buf_valid = buf_valid) :=
  ⟨by decide, by decide, by decide,
   proc_write_valid_batch 4096 sys0 buf_valid store0 (by decide) (by decide)⟩

/-- C3: `parse_kv` rejects with `-EINVAL`, leaving the store as it was, a charge
limit that is not an integer in [0,100], a `pd_verifed` that is not 0 or 1, and
every unrecognised key; `charge_limit=v` with `v` in [0,100] returns 0 and
stores `v` (also when `v` is given as its decimal text); `charge_limit=150` is
rejected with the store unchanged. -/
theorem parse_kv_validation (st : Store) :
    (∀ key val : List Char,
      key = "charge_limit".toList ∨ key = "charge_control_limit".toList →
      (∀ v, kstrtoint val = some v → v < 0 ∨ 100 < v) →
      parse_kv key val st = (-EINVAL, st)) ∧
    (∀ val : List Char, (∀ v, kstrtoint val = some v → v ≠ 0 ∧ v ≠ 1) →
      parse_kv "pd_verifed".toList val st = (-EINVAL, st)) ∧
    (∀ key val : List Char, key ∉ recognized_keys → parse_kv key val st = (-EINVAL, st)) ∧
    (∀ (val : List Char) (v : Int), kstrtoint val = some v → 0 ≤ v → v ≤ 100 →
      parse_kv "charge_limit".toList val st
        = (0, { st with g_targets := { st.g_targets with charge_control_limit_percent := v } })) ∧
    (∀ n : Nat, n ≤ 100 →
      parse_kv "charge_limit".toList (fmt_d n) st
        = (0, { st with g_targets := { st.g_targets with charge_control_limit_percent := n } })) ∧
    parse_kv "charge_limit".toList "150".toList st = (-EINVAL, st) := by
  have hcl : ∀ (val : List Char) (v : Int), kstrtoint val = some v → 0 ≤ v → v ≤ 100 →
      parse_kv "charge_limit".toList val st
        = (0, { st with g_targets :=
            { st.g_targets with charge_control_limit_percent := v } }) := by
    intro val v hv h0 h100
    simp [parse_kv, hv, h0, h100]
  have hrej : ∀ key val : List Char,
      key = "charge_limit".toList ∨ key = "charge_control_limit".toList →
      (∀ v, kstrtoint val = some v → v < 0 ∨ 100 < v) →
      parse_kv key val st = (-EINVAL, st) := by
    intro key val hk hv
    cases hp : kstrtoint val with
    | none => rcases hk with h | h <;> subst h <;> simp [parse_kv, hp]
    | some v =>
      have := hv v hp
      have hno : ¬ (0 ≤ v ∧ v ≤ 100) := by omega
      rcases hk with h | h <;> subst h <;> simp [parse_kv, hp] <;> intro h0 <;> omega
  refine ⟨hrej, ?_, fun key val => parse_kv_unrecognized key val st, hcl, ?_, ?_⟩
  · intro val hv
    cases hp : kstrtoint val with
    | none => simp [parse_kv, hp]
    | some v =>
      have := hv v hp
      simp [parse_kv, hp, this.1, this.2]
  · intro n hn
    have hparse : ∀ m : Fin 101, kstrtoint (fmt_d (m.val : Int)) = some (m.val : Int) := by
      decide
    exact hcl _ _ (hparse ⟨n, by omega⟩) (by omega) (by exact_mod_cast hn)
  · have h150 : kstrtoint "150".toList = some 150 := by decide
    refine hrej _ _ (Or.inl rfl) ?_
    intro v hv
    rw [h150] at hv
    cases hv
    right
    decide

/-- C3, at a concrete store: `charge_limit=150`, `charge_limit=-1`, `pd_verifed=2`
and `bogus=1` are rejected with the store unchanged, and `charge_limit=80` is
stored. -/
theorem parse_kv_validation_witness :
    parse_kv "charge_limit".toList "150".toList store_pd = (-EINVAL, store_pd) ∧
    parse_kv "charge_control_limit".toList "-1".toList store_pd = (-EINVAL, store_pd) ∧
    parse_kv "pd_verifed".toList "2".toList store_pd = (-EINVAL, store_pd) ∧
    parse_kv "bogus".toList "1".toList store_pd = (-EINVAL, store_pd) ∧
    parse_kv "charge_limit".toList "80".toList store_pd
      = (0, { store_pd with g_targets :=
          { store_pd.g_targets with charge_control_limit_percent := 80 } }) :=
  ⟨(parse_kv_validation store_pd).2.2.2.2.2,
   (parse_kv_validation store_pd).1 _ "-1".toList (Or.inr rfl) (by decide),
   (parse_kv_validation store_pd).2.1 "2".toList (by decide),
   (parse_kv_validation store_pd).2.2.1 _ "1".toList (by decide),
   (parse_kv_validation store_pd).2.2.2.1 "80".toList 80 (by decide) (by decide) (by decide)⟩

end ChgParamOverride

namespace BattDesignOverride

open Kernel

/-! ## batt_design_override: the get_property return handler, C4 and C5 -/

theorem ret_branch_mk_psy (p : Params) (dname : Option (List Char)) (present : Bool)
    (old new : power_supply_propval) :
    ret_branch p (mk_psy dname) present old new
      = Outcome.done (some (if present ∧ name_applies p dname then new else old)) := by
  unfold ret_branch desc_name_matches mk_psy name_applies
  cases dname with
  | none => cases present <;> cases p.override_any <;> simp
  | some n =>
    by_cases hn : n = p.batt_name <;> cases present <;> cases p.override_any <;> simp [hn]

/-- C4: on a device with a named descriptor or with none, and a non-NULL output
location, `ret_handler` leaves the override value in the caller's output exactly
when the hooked call returned 0, the property is one of the three overridable
ones, its target is present, and `override_any` is set or the descriptor's name
equals `batt_name`; otherwise the output is what the driver produced.  With a
NULL device or a NULL output location nothing is written. -/
theorem ret_handler_override_iff (p : Params) (dname : Option (List Char))
    (psp : power_supply_property) (val : power_supply_propval) (retval : Int) :
    ret_handler p { psy := some (mk_psy dname), psp := psp, val := some val } retval
      = Outcome.done (some
          (if retval = 0 ∧ overridable psp ∧ target_present p psp ∧ name_applies p dname
            then override_value p psp val else val)) ∧
    ret_handler p { psy := none, psp := psp, val := some val } retval
      = Outcome.done (some val) ∧
    ret_handler p { psy := some (mk_psy dname), psp := psp, val := none } retval
      = Outcome.done none := by
  refine ⟨?_, rfl, rfl⟩
  unfold ret_handler
  simp only
  by_cases hr : retval = 0
  · subst hr
    cases psp <;>
      simp [ret_branch_mk_psy, overridable, target_present, override_value]
  · simp [hr]

/-- C5, as stated, fails: with `design_uah = 3000000000` a successful
CHARGE_FULL_DESIGN read on the matching device returns -1294967296. -/
theorem ret_handler_truncates :
    params_big.design_uah > 0 ∧
    ret_handler params_big
        { psy := some (mk_psy (some "battery".toList)),
          psp := power_supply_property.CHARGE_FULL_DESIGN,
          val := some (power_supply_propval.intval 4000000) } 0
      = Outcome.done (some (power_supply_propval.intval (-1294967296))) ∧
    ((-1294967296 : Int) ≠ (params_big.design_uah : Int)) := by
  decide

/-- C5 (amended): on a matching device a successful read of CHARGE_FULL_DESIGN
returns `design_uah` itself when `0 < design_uah ≤ 2147483647`, and in general
the low 32 bits of `design_uah` read as a signed `int`; likewise
ENERGY_FULL_DESIGN and `design_uwh`. -/
theorem ret_handler_design_value (p : Params) (dname : Option (List Char))
    (val : power_supply_propval) (hmatch : name_applies p dname = true) :
    (0 < p.design_uah →
      ret_handler p { psy := some (mk_psy dname),
                      psp := power_supply_property.CHARGE_FULL_DESIGN, val := some val } 0
        = Outcome.done (some (power_supply_propval.intval (to_int p.design_uah)))) ∧
    (0 < p.design_uah → p.design_uah ≤ 2147483647 →
      ret_handler p { psy := some (mk_psy dname),
                      psp := power_supply_property.CHARGE_FULL_DESIGN, val := some val } 0
        = Outcome.done (some (power_supply_propval.intval (p.design_uah : Int)))) ∧
    (0 < p.design_uwh →
      ret_handler p { psy := some (mk_psy dname),
                      psp := power_supply_property.ENERGY_FULL_DESIGN, val := some val } 0
        = Outcome.done (some (power_supply_propval.intval (to_int p.design_uwh)))) ∧
    (0 < p.design_uwh → p.design_uwh ≤ 2147483647 →
      ret_handler p { psy := some (mk_psy dname),
                      psp := power_supply_property.ENERGY_FULL_DESIGN, val := some val } 0
        = Outcome.done (some (power_supply_propval.intval (p.design_uwh : Int)))) := by
  have hsmall : ∀ n : Nat, n ≤ 2147483647 → to_int n = (n : Int) := by
    intro n hn
    unfold to_int
    have h1 : n % 4294967296 = n := Nat.mod_eq_of_lt (by omega)
    rw [h1, if_pos (by omega)]
  have hA : 0 < p.design_uah →
      ret_handler p { psy := some (mk_psy dname),
                      psp := power_supply_property.CHARGE_FULL_DESIGN, val := some val } 0
        = Outcome.done (some (power_supply_propval.intval (to_int p.design_uah))) := by
    intro h
    unfold ret_handler
    simp [ret_branch_mk_psy, hmatch, h]
  have hW : 0 < p.design_uwh →
      ret_handler p { psy := some (mk_psy dname),
                      psp := power_supply_property.ENERGY_FULL_DESIGN, val := some val } 0
        = Outcome.done (some (power_supply_propval.intval (to_int p.design_uwh))) := by
    intro h
    unfold ret_handler
    simp [ret_branch_mk_psy, hmatch, h]
  refine ⟨hA, ?_, hW, ?_⟩
  · intro h hle
    rw [hA h, hsmall _ hle]
  · intro h hle
    rw [hW h, hsmall _ hle]

/-- C5 (amended), at `design_uah = 5000000`, `design_uwh = 19350000` on the device
named `battery`. -/
theorem ret_handler_design_value_witness :
    name_applies params0 (some "battery".toList) = true ∧
    ret_handler params0
        { psy := some (mk_psy (some "battery".toList)),
          psp := power_supply_property.CHARGE_FULL_DESIGN,
          val := some (power_supply_propval.intval 4000000) } 0
      = Outcome.done (some (power_supply_propval.intval 5000000)) ∧
    ret_handler params0
        { psy := some (mk_psy (some "battery".toList)),
          psp := power_supply_property.ENERGY_FULL_DESIGN,
          val := some (power_supply_propval.intval 4000000) } 0
      = Outcome.done (some (power_supply_propval.intval 19350000)) :=
  ⟨by decide,
   (ret_handler_design_value params0 (some "battery".toList)
      (power_supply_propval.intval 4000000) (by decide)).2.1 (by decide) (by decide),
   (ret_handler_design_value params0 (some "battery".toList)
      (power_supply_propval.intval 4000000) (by decide)).2.2.2 (by decide) (by decide)⟩

end BattDesignOverride

namespace ChgParamOverride

open Kernel

/-! ## chg_param_override: the show-path return handlers, C6 and C7; the bare key, C8 -/

theorem fmt_d_length (v : Int) (h0 : 0 < v) (h1 : v ≤ 2147483647) : (fmt_d v).length ≤ 10 := by
  unfold fmt_d
  rw [if_neg (by omega)]
  unfold Nat.toDigits
  exact Nat.toDigitsCore_length 10 (by decide) _ _ 10 (by omega) (by decide)

theorem show_rewrite_fits (PAGE_SIZE : Nat) (buf : List Char) (v : Int) (hpage : 12 ≤ PAGE_SIZE)
    (h0 : 0 < v) (h1 : v ≤ 2147483647) :
    show_rewrite PAGE_SIZE buf v
      = (some (fmt_d v ++ ['\n']), ((fmt_d v ++ ['\n']).length : Int)) := by
  have hlen := fmt_d_length v h0 h1
  have htake : (fmt_d v ++ ['\n']).take (PAGE_SIZE - 1) = fmt_d v ++ ['\n'] := by
    apply List.take_of_length_le
    simp only [List.length_append, List.length_singleton]
    omega
  unfold show_rewrite scnprintf
  rw [if_neg (by omega), htake]

/-- C6 (amended): for `voltage_max`, `constant_charge_current`,
`charge_termination_current` and `charge_term_current` on the device named
`target_batt`, and for `input_current_limit` on the device named `target_usb`
when that name differs from `target_batt`: if the stored target `v` is positive
the caller's page holds the decimal text of `v` and a newline and x0 is the
length of that text; if `v` is not positive the page and x0 are what the
driver produced. -/
theorem show_ret_handler_rewrites (PAGE_SIZE : Nat) (st : Store) (n attr buf : List Char)
    (x0 v : Int) (hpage : 12 ≤ PAGE_SIZE) (hint : v ≤ 2147483647)
    (hrole : (n = st.target_batt ∧ batt_attr_target st attr = some v) ∨
      (n = st.target_usb ∧ st.target_usb ≠ st.target_batt ∧ usb_attr_target st attr = some v)) :
    show_ret_handler PAGE_SIZE st (show_args n attr buf) x0
      = Outcome.done
          (if 0 < v then (some (fmt_d v ++ ['\n']), ((fmt_d v ++ ['\n']).length : Int))
            else (some buf, x0)) := by
  rcases hrole with ⟨hn, ht⟩ | ⟨hn, hne, ht⟩
  · subst hn
    unfold batt_attr_target at ht
    unfold show_ret_handler show_args
    simp only [psy_name, if_true]
    by_cases hpos : 0 < v
    · split_ifs at ht with ha hb hc <;> simp only [Option.some.injEq] at ht <;> subst ht
      · subst ha
        simp only [true_and, gt_iff_lt, hpos, if_true]
        rw [show_rewrite_fits PAGE_SIZE buf _ hpage hpos hint]
      · subst hb
        have hx : ¬ ("constant_charge_current".toList = "voltage_max".toList) := by decide
        simp only [hx, false_and, if_false, true_and, gt_iff_lt, hpos, if_true]
        rw [show_rewrite_fits PAGE_SIZE buf _ hpage hpos hint]
      · simp only [ha, hb, hc, false_and, if_false, true_and, gt_iff_lt, hpos, if_true]
        rw [show_rewrite_fits PAGE_SIZE buf _ hpage hpos hint]
    · split_ifs at ht with ha hb hc <;> simp only [Option.some.injEq] at ht <;> subst ht
      · subst ha
        simp [hpos]
      · subst hb
        simp [hpos]
      · simp only [ha, hb, hc, false_and, if_false, true_and, gt_iff_lt, hpos]
  · subst hn
    unfold usb_attr_target at ht
    unfold show_ret_handler show_args
    have hne2 : ¬ (some st.target_usb = some st.target_batt) := by
      simpa using hne
    simp only [psy_name, hne2, if_false, if_true]
    split_ifs at ht with ha
    simp only [Option.some.injEq] at ht
    subst ht
    subst ha
    by_cases hpos : 0 < st.g_targets.usb_input_current_limit_ua
    · simp only [true_and, gt_iff_lt, hpos, if_true]
      rw [show_rewrite_fits PAGE_SIZE buf _ hpage hpos hint]
    · simp [hpos]

/-- C6, as stated, fails: when both device names are `usb`, a read of
`input_current_limit` on the device named `usb` is not rewritten although the
stored limit is 1500000. -/
theorem show_ret_handler_same_name :
    store_same_name.target_usb = "usb".toList ∧
    store_same_name.g_targets.usb_input_current_limit_ua = 1500000 ∧
    show_ret_handler 4096 store_same_name
        (show_args "usb".toList "input_current_limit".toList "500000\n".toList) 7
      = Outcome.done (some "500000\n".toList, 7) := by
  decide

/-- C6 (amended), at the scenario of the specification: after
`voltage_max=4460000` the battery's `voltage_max` reads `4460000` and a newline
with length 8, and with `voltage_max` back at 0 the driver's text is returned. -/
theorem show_ret_handler_rewrites_witness :
    show_ret_handler 4096 store_vmax
        (show_args "battery".toList "voltage_max".toList "4400000\n".toList) 8
      = Outcome.done (some "4460000\n".toList, 8) ∧
    show_ret_handler 4096 store0
        (show_args "battery".toList "voltage_max".toList "4400000\n".toList) 8
      = Outcome.done (some "4400000\n".toList, 8) :=
  ⟨show_ret_handler_rewrites 4096 store_vmax "battery".toList "voltage_max".toList
      "4400000\n".toList 8 4460000 (by decide) (by decide) (Or.inl ⟨rfl, rfl⟩),
   show_ret_handler_rewrites 4096 store0 "battery".toList "voltage_max".toList
      "4400000\n".toList 8 0 (by decide) (by decide) (Or.inl ⟨rfl, rfl⟩)⟩

/-- C7, the code at the failing inputs: each show-path return handler rewrites
the page and x0 although the hooked call returned the failure -61 (`-ENODATA`). -/
theorem show_handlers_ignore_failure :
    show_ret_handler 4096 store_vmax
        (show_args "battery".toList "voltage_max".toList []) (-61)
      = Outcome.done (some "4460000\n".toList, 8) ∧
    pd_show_ret 4096 { cls := 0, attr := 0, buf := some [] } (-61)
      = (some "1\n".toList, 2) ∧
    BattDesignOverride.show_ret_handler 4096 BattDesignOverride.params0
        (show_args "battery".toList "charge_full_design".toList []) (-61)
      = (some "5000000\n".toList, 8) := by
  decide

/-- C8, as stated, fails: the bare key `pd_verifed_disable` has no `=`, so the
write returns `-EINVAL`, runs no apply pass and leaves the enabled bit set. -/
theorem proc_write_bare_disable_rejected :
    proc_write 4096 sys0 true true "pd_verifed_disable".toList store_pd
      = some (-EINVAL, store_pd, [Event.mutex_lock, Event.mutex_unlock]) ∧
    store_pd.g_targets.pd_verifed_enabled = true := by
  decide

/-- C8 (amended): a write whose only line is `pd_verifed_disable=` followed by
any text without a newline (the value is ignored and may be empty) returns the
byte count, clears `pd_verifed_enabled`, leaves every other field as it was and
runs one apply pass; the bare key without `=` is rejected with `-EINVAL` and
the store is unchanged. -/
theorem proc_write_pd_verifed_disable (PAGE_SIZE : Nat) (sys : Subsys) (v : List Char)
    (st : Store) (hv : ∀ c ∈ v, c ≠ '\n')
    (hlen : ("pd_verifed_disable=".toList ++ v).length ≤ PAGE_SIZE) :
    (∃ tr : List Event,
      proc_write PAGE_SIZE sys true true ("pd_verifed_disable=".toList ++ v) st
        = some ((19 + v.length : Int),
            { st with g_targets := { st.g_targets with pd_verifed_enabled := false } }, tr) ∧
      apply_passes tr
        = [{ st with g_targets := { st.g_targets with pd_verifed_enabled := false } }]) ∧
    proc_write PAGE_SIZE sys true true "pd_verifed_disable".toList st
      = some (-EINVAL, st, [Event.mutex_lock, Event.mutex_unlock]) := by
  have hl : ("pd_verifed_disable=".toList ++ v).length = 19 + v.length := by
    rw [List.length_append]
    rfl
  constructor
  · refine ⟨[Event.mutex_lock]
      ++ (apply_targets_locked sys
          { st with g_targets := { st.g_targets with pd_verifed_enabled := false } }).2
      ++ [Event.mutex_unlock], ?_, ?_⟩
    · rw [proc_write_ok_eq PAGE_SIZE sys _ st ⟨by omega, hlen⟩, run_pd_verifed_disable v hv st]
      simp only [if_true, hl]
      push_cast
      rfl
    · rw [apply_passes_append, apply_passes_append, apply_passes_apply]
      rfl
  · have hrun : run_lines (text_lines (cstr "pd_verifed_disable".toList)) st = (-EINVAL, st) := by
      have h1 : text_lines (cstr "pd_verifed_disable".toList) = [] ++ "pd_verifed_disable".toList :: [] := by
        decide
      rw [h1]
      exact run_lines_invalid [] _ [] st (by simp) (by decide) (by decide)
    rw [proc_write_ok_eq PAGE_SIZE sys _ st ⟨by decide, by
      have : "pd_verifed_disable".toList.length = 18 := by decide
      omega⟩, hrun]
    simp [EINVAL]

/-- C8 (amended), at `pd_verifed_disable=` and at `pd_verifed_disable=1`. -/
theorem proc_write_pd_verifed_disable_witness :
    ((∃ tr : List Event,
      proc_write 4096 sys0 true true ("pd_verifed_disable=".toList ++ "1".toList) store_pd
        = some ((19 + "1".toList.length : Int),
            { store_pd with
                g_targets := { store_pd.g_targets with pd_verifed_enabled := false } }, tr) ∧
      apply_passes tr
        = [{ store_pd with
              g_targets := { store_pd.g_targets with pd_verifed_enabled := false } }]) ∧
    proc_write 4096 sys0 true true "pd_verifed_disable".toList store_pd
      = some (-EINVAL, store_pd, [Event.mutex_lock, Event.mutex_unlock])) ∧
    (proc_write 4096 sys0 true true "pd_verifed_disable=".toList store_pd).map (fun r => r.1)
      = some 19 :=
  ⟨proc_write_pd_verifed_disable 4096 sys0 "1".toList store_pd (by decide) (by decide),
   by decide⟩

/-! ## Module initialisation, C9 -/

theorem chg_override_init_ok (env : InitEnv) (h : (chg_override_init env).1 = 0) :
    (chg_override_init env).2
      = { proc_entry := true, ps_show_kretprobe := true, pd_show_kretprobe := true,
          monitor_timer := true, psy_nb := true } := by
  unfold chg_override_init at *
  cases hp : env.proc_create_ok <;> simp [hp, ENOMEM] at h ⊢
  split_ifs at h ⊢ <;> simp_all [Installed.none]

theorem chg_override_init_rollback (env : InitEnv)
    (hn : env.proc_create_ok = false ∨ env.register_ps_show ≠ 0 ∨ env.register_pd_show ≠ 0) :
    (chg_override_init env).1 ≠ 0 ∧ (chg_override_init env).2 = Installed.none := by
  unfold chg_override_init
  cases hp : env.proc_create_ok
  · simp [hp, ENOMEM]
  · simp only [hp, Bool.not_true, Bool.false_eq_true, if_false]
    simp only [hp, Bool.true_eq_false, false_or] at hn
    split_ifs <;> simp_all [Installed.none]

theorem batt_override_init_all_or_nothing (env : BattDesignOverride.InitEnv) :
    ((BattDesignOverride.batt_override_init env).1 = 0 →
      (BattDesignOverride.batt_override_init env).2
        = { ps_getprop_kretprobe := true, ps_show_kretprobe := true }) ∧
    ((BattDesignOverride.batt_override_init env).1 ≠ 0 →
      (BattDesignOverride.batt_override_init env).2
        = { ps_getprop_kretprobe := false, ps_show_kretprobe := false }) := by
  unfold BattDesignOverride.batt_override_init
  split_ifs <;> simp_all

/-- C9, the code at the failing input: when `proc_create` and both
`register_kretprobe` calls succeed and `power_supply_reg_notifier` returns
-22, `chg_override_init` returns -22 with `pd_show_kretprobe` still registered;
`chg_override_exit` is the path that unregisters it. -/
theorem chg_override_init_leaks_pd_show :
    chg_override_init env_notifier_fails
      = (-22, { proc_entry := false, ps_show_kretprobe := false, pd_show_kretprobe := true,
                monitor_timer := false, psy_nb := false }) ∧
    (chg_override_init env_notifier_fails).2.any_probe = true ∧
    (chg_override_exit (chg_override_init env_notifier_fails).2).any_probe = false := by
  decide

/-- C10: one apply pass calls `write_psy_int` exactly for the properties whose
target is present and whose device was found, once each, in program order and
with the configured value; which calls are made does not depend on what
`power_supply_set_property` returns, and the pass returns 0. -/
theorem apply_targets_locked_attempts (sys : Subsys) (st : Store)
    (hnn : 0 ≤ st.g_targets.voltage_max_uv ∧ 0 ≤ st.g_targets.constant_charge_current_ua ∧
      0 ≤ st.g_targets.term_current_ua ∧ 0 ≤ st.g_targets.usb_input_current_limit_ua ∧
      0 ≤ st.g_targets.charge_control_limit_percent) :
    write_attempts (apply_targets_locked sys st).2 = expected_attempts sys st ∧
    ((write_attempts (apply_targets_locked sys st).2).map (fun x => x.2.1)).Nodup ∧
    (∀ sys' : Subsys, sys'.power_supply_get_by_name = sys.power_supply_get_by_name →
      write_attempts (apply_targets_locked sys' st).2
        = write_attempts (apply_targets_locked sys st).2) ∧
    (apply_targets_locked sys st).1 = 0 := by
  obtain ⟨h1, h2, h3, h4, h5⟩ := hnn
  have key : ∀ s : Subsys,
      write_attempts (apply_targets_locked s st).2 = expected_attempts s st := by
    intro s
    unfold apply_targets_locked expected_attempts
    simp only [write_attempts_append]
    cases s.power_supply_get_by_name st.target_batt <;>
      cases s.power_supply_get_by_name st.target_usb <;>
      simp only [write_attempts_append, write_attempts_apply_one, h1, h2, h3, h4, h5] <;>
      simp only [write_attempts, List.filter_cons, List.filter_nil, List.filterMap_cons,
        List.filterMap_nil, List.append_nil, List.nil_append] <;>
      split_ifs <;> simp
  refine ⟨key sys, ?_, ?_, rfl⟩
  · rw [key sys]
    unfold expected_attempts
    cases sys.power_supply_get_by_name st.target_batt <;>
      cases sys.power_supply_get_by_name st.target_usb <;>
      simp [List.filter_cons] <;> split_ifs <;> simp
  · intro sys' hsame
    rw [key sys, key sys']
    unfold expected_attempts
    rw [hsame]

/-- C10, at a store with `voltage_max`, `icl` and the charge limit configured, on
a subsystem that refuses every write: the three writes are still attempted,
in order, and nothing else. -/
theorem apply_targets_locked_attempts_witness :
    (0 ≤ store_apply.g_targets.voltage_max_uv ∧
      0 ≤ store_apply.g_targets.constant_charge_current_ua ∧
      0 ≤ store_apply.g_targets.term_current_ua ∧
      0 ≤ store_apply.g_targets.usb_input_current_limit_ua ∧
      0 ≤ store_apply.g_targets.charge_control_limit_percent) ∧
    (write_attempts (apply_targets_locked sys0 store_apply).2
        = expected_attempts sys0 store_apply ∧
      ((write_attempts (apply_targets_locked sys0 store_apply).2).map (fun x => x.2.1)).Nodup ∧
      (∀ sys1 : Subsys, sys1.power_supply_get_by_name = sys0.power_supply_get_by_name →
        write_attempts (apply_targets_locked sys1 store_apply).2
          = write_attempts (apply_targets_locked sys0 store_apply).2) ∧
      (apply_targets_locked sys0 store_apply).1 = 0) ∧
    expected_attempts sys0 store_apply
      = [(⟨some ⟨some "battery".toList, true⟩⟩, power_supply_property.VOLTAGE_MAX, 4460000),
         (⟨some ⟨some "battery".toList, true⟩⟩, power_supply_property.CHARGE_CONTROL_LIMIT, 80),
         (⟨some ⟨some "usb".toList, false⟩⟩, power_supply_property.INPUT_CURRENT_LIMIT,
            1500000)] :=
  ⟨by decide, apply_targets_locked_attempts sys0 store_apply (by decide), by decide⟩

end ChgParamOverride

namespace ChgParamOverride

open Kernel

/-! ## Decimal text -/

/-- The characters `%d` can produce. -/
theorem digitChar_digit (m : Nat) (h : m < 10) :
    isdigit (Nat.digitChar m) = true ∧ (Nat.digitChar m).toNat - 48 = m := by
  interval_cases m <;> decide

theorem toDigitsCore_digits (fuel : Nat) :
    ∀ (n : Nat) (ds : List Char), (∀ c ∈ ds, isdigit c = true) →
      ∀ c ∈ Nat.toDigitsCore 10 fuel n ds, isdigit c = true := by
  induction fuel with
  | zero =>
    intro n ds h
    simpa [Nat.toDigitsCore] using h
  | succ f ih =>
    intro n ds h
    have hd := (digitChar_digit (n % 10) (Nat.mod_lt _ (by decide))).1
    have hcons : ∀ c ∈ Nat.digitChar (n % 10) :: ds, isdigit c = true := by
      intro c hc
      rcases List.mem_cons.mp hc with rfl | hc
      · exact hd
      · exact h c hc
    simp only [Nat.toDigitsCore]
    split_ifs
    · exact hcons
    · exact ih _ _ hcons

theorem toDigits_digits (n : Nat) : ∀ c ∈ Nat.toDigits 10 n, isdigit c = true :=
  toDigitsCore_digits _ _ _ (by simp)

theorem toDigitsCore_value (fuel : Nat) :
    ∀ (n : Nat) (ds : List Char), n < fuel →
      (Nat.toDigitsCore 10 fuel n ds).foldl (fun acc c => 10 * acc + (c.toNat - 48)) 0
        = ds.foldl (fun acc c => 10 * acc + (c.toNat - 48)) n := by
  induction fuel with
  | zero => intro n ds h; omega
  | succ f ih =>
    intro n ds h
    have hd := (digitChar_digit (n % 10) (Nat.mod_lt _ (by decide))).2
    simp only [Nat.toDigitsCore]
    split_ifs with h0
    · have hn : n % 10 = n := by omega
      simp only [List.foldl_cons, Nat.mul_zero, Nat.zero_add, hd]
      rw [hn]
    · rw [ih (n / 10) _ (by omega)]
      simp only [List.foldl_cons, hd]
      have : 10 * (n / 10) + n % 10 = n := Nat.div_add_mod n 10
      rw [this]

/-- Reading the decimal text of a number gives the number back. -/
theorem parse_integer_toDigits (n : Nat) : parse_integer (Nat.toDigits 10 n) = n := by
  unfold parse_integer Nat.toDigits
  rw [toDigitsCore_value (n + 1) n [] (by omega)]
  rfl

theorem toDigits_injective (m n : Nat) (h : Nat.toDigits 10 m = Nat.toDigits 10 n) : m = n := by
  have := congrArg parse_integer h
  rwa [parse_integer_toDigits, parse_integer_toDigits] at this

/-- The text of `%d` determines the value. -/
theorem fmt_d_injective (v w : Int) (h : fmt_d v = fmt_d w) : v = w := by
  unfold fmt_d at h
  have hminus : isdigit '-' = false := by decide
  split_ifs at h with hv hw hw
  · have := toDigits_injective _ _ (List.cons.inj h).2
    omega
  · have hmem : '-' ∈ Nat.toDigits 10 w.natAbs := by
      rw [← h]
      exact List.mem_cons_self _ _
    rw [toDigits_digits _ _ hmem] at hminus
    cases hminus
  · have hmem : '-' ∈ Nat.toDigits 10 v.natAbs := by
      rw [h]
      exact List.mem_cons_self _ _
    rw [toDigits_digits _ _ hmem] at hminus
    cases hminus
  · have := toDigits_injective _ _ h
    omega

theorem fmt_d_numchar (v : Int) : ∀ c ∈ fmt_d v, numchar c = true := by
  intro c hc
  unfold fmt_d at hc
  unfold numchar
  split_ifs at hc
  · rcases List.mem_cons.mp hc with rfl | hc
    · decide
    · simp [toDigits_digits _ c hc]
  · simp [toDigits_digits _ c hc]

theorem fmt_d_length_int (v : Int) (h0 : -2147483648 ≤ v) (h1 : v ≤ 2147483647) :
    (fmt_d v).length ≤ 11 := by
  have hcore : (Nat.toDigits 10 v.natAbs).length ≤ 10 := by
    unfold Nat.toDigits
    exact Nat.toDigitsCore_length 10 (by decide) _ _ 10 (by omega) (by decide)
  unfold fmt_d
  split_ifs
  · simp only [List.length_cons]
    omega
  · omega

/-- Two texts that end in a number after a character no number contains agree
on the number and on what precedes it. -/
theorem split_at_number (a b u v : List Char) (x : Char) (hx : numchar x = false)
    (hu : ∀ c ∈ u, numchar c = true) (hv : ∀ c ∈ v, numchar c = true)
    (h : a ++ x :: u = b ++ x :: v) : a = b ∧ u = v := by
  have key : ∀ (u v r s : List Char), (∀ c ∈ u, numchar c = true) →
      (∀ c ∈ v, numchar c = true) → u ++ x :: r = v ++ x :: s → u = v ∧ r = s := by
    intro u
    induction u with
    | nil =>
      intro v r s _ hv h
      cases v with
      | nil => simpa using h
      | cons d v =>
        simp only [List.nil_append, List.cons_append, List.cons.injEq] at h
        have := hv d (List.mem_cons_self _ _)
        rw [← h.1, hx] at this
        cases this
    | cons c u ih =>
      intro v r s hu hv h
      cases v with
      | nil =>
        simp only [List.nil_append, List.cons_append, List.cons.injEq] at h
        have := hu c (List.mem_cons_self _ _)
        rw [h.1, hx] at this
        cases this
      | cons d v =>
        simp only [List.cons_append, List.cons.injEq] at h
        obtain ⟨h1, h2⟩ := ih v r s (fun y hy => hu y (List.mem_cons_of_mem _ hy))
          (fun y hy => hv y (List.mem_cons_of_mem _ hy)) h.2
        exact ⟨by rw [h.1, h1], h2⟩
  have hr := congrArg List.reverse h
  simp only [List.reverse_append, List.reverse_cons, List.append_assoc, List.singleton_append]
    at hr
  obtain ⟨h1, h2⟩ := key u.reverse v.reverse a.reverse b.reverse
    (fun c hc => hu c (List.mem_reverse.mp hc)) (fun c hc => hv c (List.mem_reverse.mp hc)) hr
  exact ⟨List.reverse_injective h2, List.reverse_injective h1⟩

end ChgParamOverride

namespace ChgParamOverride

open Kernel

/-! ## The procfs read handler, C11 -/

theorem numbered_inj (p q key : List Char) (v w : Int)
    (h : numbered p key v = numbered q key w) : p = q ∧ v = w := by
  unfold numbered at h
  obtain ⟨h1, h2⟩ := split_at_number _ _ _ _ '=' (by decide) (fmt_d_numchar v)
    (fmt_d_numchar w) h
  exact ⟨List.append_cancel_right h1, fmt_d_injective v w h2⟩

theorem read_text_nf (ar : Bool) (st : Store) :
    read_text ar st
      = numbered (numbered (numbered (numbered
            ("batt=".toList ++ st.target_batt ++ " usb=".toList ++ st.target_usb ++ ['\n'])
            "voltage_max".toList st.g_targets.voltage_max_uv)
            "\nccc".toList st.g_targets.constant_charge_current_ua)
            "\nterm".toList st.g_targets.term_current_ua)
            "\nicl".toList st.g_targets.usb_input_current_limit_ua
        ++ read_tail ar := by
  simp [read_text, numbered, read_tail, List.append_assoc]

theorem read_tail_inj (a b : List Char) (ar ar1 : Bool)
    (h : a ++ read_tail ar = b ++ read_tail ar1) : ar = ar1 ∧ a = b := by
  have h2 := congrArg (fun l => l.reverse.take 2) h
  cases ar <;> cases ar1
  · exact ⟨rfl, List.append_cancel_right h⟩
  · simp [read_tail, List.reverse_append] at h2
  · simp [read_tail, List.reverse_append] at h2
  · exact ⟨rfl, List.append_cancel_right h⟩

/-- The text of `proc_read` determines the four numbers it prints and the
flag. -/
theorem read_text_inj (ar ar1 : Bool) (st st1 : Store)
    (h : read_text ar st = read_text ar1 st1) :
    ar = ar1 ∧
    st.g_targets.voltage_max_uv = st1.g_targets.voltage_max_uv ∧
    st.g_targets.constant_charge_current_ua = st1.g_targets.constant_charge_current_ua ∧
    st.g_targets.term_current_ua = st1.g_targets.term_current_ua ∧
    st.g_targets.usb_input_current_limit_ua = st1.g_targets.usb_input_current_limit_ua := by
  rw [read_text_nf, read_text_nf] at h
  obtain ⟨har, h4⟩ := read_tail_inj _ _ _ _ h
  obtain ⟨h3, hi⟩ := numbered_inj _ _ _ _ _ h4
  obtain ⟨h2, ht⟩ := numbered_inj _ _ _ _ _ h3
  obtain ⟨h1, hc⟩ := numbered_inj _ _ _ _ _ h2
  obtain ⟨_, hv⟩ := numbered_inj _ _ _ _ _ h1
  exact ⟨har, hv, hc, ht, hi⟩

theorem read_text_length (ar : Bool) (st : Store) (hwf : store_wf st) :
    (read_text ar st).length ≤ 147 := by
  obtain ⟨hb, hu, ⟨v0, v1⟩, ⟨c0, c1⟩, ⟨t0, t1⟩, ⟨i0, i1⟩⟩ := hwf
  have hv := fmt_d_length_int _ v0 v1
  have hc := fmt_d_length_int _ c0 c1
  have ht := fmt_d_length_int _ t0 t1
  have hi := fmt_d_length_int _ i0 i1
  cases ar <;> simp [read_text] <;> omega

theorem scnprintf_fits (old text : List Char) (size : Nat) (h : text.length + 1 ≤ size) :
    scnprintf old size text = (text, text.length) := by
  unfold scnprintf
  rw [if_neg (by omega), List.take_of_length_le (by omega)]

theorem proc_read_text (ar : Bool) (st : Store) (count : Nat) (hwf : store_wf st)
    (hcount : (read_text ar st).length ≤ count) :
    proc_read ar st 0 count true
      = (((read_text ar st).length : Int), read_text ar st, (read_text ar st).length) := by
  have hlen := read_text_length ar st hwf
  unfold proc_read
  rw [scnprintf_fits [] (read_text ar st) 512 (by omega)]
  generalize read_text ar st = t at hcount hlen ⊢
  have hgt : ¬ t.length > count := by omega
  simp only [ne_eq, not_true_eq_false, if_false, hgt, Bool.not_true, Bool.false_eq_true,
    Nat.zero_add, List.take_length]

end ChgParamOverride

namespace ChgParamOverride

open Kernel

/-- C11, as stated, fails: a store with `charge_limit=80` and a store with
`pd_verifed=1` read back the very text of the store with neither, which shows
the two names, four numbers and the flag, and nothing of the charge-control
limit or of the protocol mode. -/
theorem proc_read_omits_limit_and_mode :
    (proc_read true store_limit 0 4096 true).2.1
      = "batt=battery usb=usb\nvoltage_max=0\nccc=0\nterm=0\nicl=0\nauto_reapply=yes\n".toList ∧
    proc_read true store_limit 0 4096 true = proc_read true store0 0 4096 true ∧
    store_limit.g_targets.charge_control_limit_percent
      ≠ store0.g_targets.charge_control_limit_percent ∧
    proc_read true store_pd 0 4096 true = proc_read true store0 0 4096 true ∧
    store_pd.g_targets.pd_verifed ≠ store0.g_targets.pd_verifed := by
  decide

/-- C11 (amended): a read from offset 0 into a buffer that holds the whole text
returns the text `batt=<name> usb=<name>`, `voltage_max=<n>`, `ccc=<n>`,
`term=<n>`, `icl=<n>`, `auto_reapply=yes` or `no`, one per line, and its length;
two stores that differ in one of these four numbers read back different
texts. -/
theorem proc_read_snapshot (ar : Bool) (st : Store) (count : Nat) (hwf : store_wf st)
    (hcount : (read_text ar st).length ≤ count) :
    proc_read ar st 0 count true
      = (((read_text ar st).length : Int), read_text ar st, (read_text ar st).length) ∧
    ("batt=".toList ++ st.target_batt ++ " usb=".toList ++ st.target_usb ++ ['\n'])
      <+: read_text ar st ∧
    ("voltage_max=".toList ++ fmt_d st.g_targets.voltage_max_uv ++ ['\n'])
      <:+: read_text ar st ∧
    ("ccc=".toList ++ fmt_d st.g_targets.constant_charge_current_ua ++ ['\n'])
      <:+: read_text ar st ∧
    ("term=".toList ++ fmt_d st.g_targets.term_current_ua ++ ['\n']) <:+: read_text ar st ∧
    ("icl=".toList ++ fmt_d st.g_targets.usb_input_current_limit_ua ++ ['\n'])
      <:+: read_text ar st ∧
    ("auto_reapply=".toList ++ (if ar then "yes".toList else "no".toList) ++ ['\n'])
      <:+ read_text ar st ∧
    (∀ (ar1 : Bool) (st1 : Store) (count1 : Nat), store_wf st1 →
      (read_text ar1 st1).length ≤ count1 →
      (proc_read ar1 st1 0 count1 true).2.1 = (proc_read ar st 0 count true).2.1 →
      ar1 = ar ∧
      st1.g_targets.voltage_max_uv = st.g_targets.voltage_max_uv ∧
      st1.g_targets.constant_charge_current_ua = st.g_targets.constant_charge_current_ua ∧
      st1.g_targets.term_current_ua = st.g_targets.term_current_ua ∧
      st1.g_targets.usb_input_current_limit_ua = st.g_targets.usb_input_current_limit_ua) := by
  refine ⟨proc_read_text ar st count hwf hcount, ?_, ?_, ?_, ?_, ?_, ?_, ?_⟩
  · exact ⟨("voltage_max=".toList ++ fmt_d st.g_targets.voltage_max_uv ++ ['\n'])
      ++ ("ccc=".toList ++ fmt_d st.g_targets.constant_charge_current_ua ++ ['\n'])
      ++ ("term=".toList ++ fmt_d st.g_targets.term_current_ua ++ ['\n'])
      ++ ("icl=".toList ++ fmt_d st.g_targets.usb_input_current_limit_ua ++ ['\n'])
      ++ ("auto_reapply=".toList ++ (if ar then "yes".toList else "no".toList) ++ ['\n']), by simp only [read_text, List.append_assoc]⟩
  · exact ⟨("batt=".toList ++ st.target_batt ++ " usb=".toList ++ st.target_usb ++ ['\n']),
      ("ccc=".toList ++ fmt_d st.g_targets.constant_charge_current_ua ++ ['\n'])
          ++ ("term=".toList ++ fmt_d st.g_targets.term_current_ua ++ ['\n'])
          ++ ("icl=".toList ++ fmt_d st.g_targets.usb_input_current_limit_ua ++ ['\n'])
          ++ ("auto_reapply=".toList ++ (if ar then "yes".toList else "no".toList) ++ ['\n']),
      by simp only [read_text, List.append_assoc]⟩
  · exact ⟨("batt=".toList ++ st.target_batt ++ " usb=".toList ++ st.target_usb ++ ['\n'])
      ++ ("voltage_max=".toList ++ fmt_d st.g_targets.voltage_max_uv ++ ['\n']),
      ("term=".toList ++ fmt_d st.g_targets.term_current_ua ++ ['\n'])
          ++ ("icl=".toList ++ fmt_d st.g_targets.usb_input_current_limit_ua ++ ['\n'])
          ++ ("auto_reapply=".toList ++ (if ar then "yes".toList else "no".toList) ++ ['\n']),
      by simp only [read_text, List.append_assoc]⟩
  · exact ⟨("batt=".toList ++ st.target_batt ++ " usb=".toList ++ st.target_usb ++ ['\n'])
      ++ ("voltage_max=".toList ++ fmt_d st.g_targets.voltage_max_uv ++ ['\n'])
      ++ ("ccc=".toList ++ fmt_d st.g_targets.constant_charge_current_ua ++ ['\n']),
      ("icl=".toList ++ fmt_d st.g_targets.usb_input_current_limit_ua ++ ['\n'])
          ++ ("auto_reapply=".toList ++ (if ar then "yes".toList else "no".toList) ++ ['\n']),
      by simp only [read_text, List.append_assoc]⟩
  · exact ⟨("batt=".toList ++ st.target_batt ++ " usb=".toList ++ st.target_usb ++ ['\n'])
      ++ ("voltage_max=".toList ++ fmt_d st.g_targets.voltage_max_uv ++ ['\n'])
      ++ ("ccc=".toList ++ fmt_d st.g_targets.constant_charge_current_ua ++ ['\n'])
      ++ ("term=".toList ++ fmt_d st.g_targets.term_current_ua ++ ['\n']),
      ("auto_reapply=".toList ++ (if ar then "yes".toList else "no".toList) ++ ['\n']),
      by simp only [read_text, List.append_assoc]⟩
  · exact ⟨("batt=".toList ++ st.target_batt ++ " usb=".toList ++ st.target_usb ++ ['\n'])
      ++ ("voltage_max=".toList ++ fmt_d st.g_targets.voltage_max_uv ++ ['\n'])
      ++ ("ccc=".toList ++ fmt_d st.g_targets.constant_charge_current_ua ++ ['\n'])
      ++ ("term=".toList ++ fmt_d st.g_targets.term_current_ua ++ ['\n'])
      ++ ("icl=".toList ++ fmt_d st.g_targets.usb_input_current_limit_ua ++ ['\n']), by simp only [read_text, List.append_assoc]⟩
  · intro ar1 st1 count1 hwf1 hcount1 h
    rw [proc_read_text ar st count hwf hcount, proc_read_text ar1 st1 count1 hwf1 hcount1] at h
    exact read_text_inj ar1 ar st1 st h

/-- C11 (amended), at the store after `voltage_max=4460000` read into a page. -/
theorem proc_read_snapshot_witness :
    (read_text true store_vmax).length ≤ 4096 ∧
    proc_read true store_vmax 0 4096 true
      = (77, "batt=battery usb=usb\nvoltage_max=4460000\nccc=0\nterm=0\nicl=0\nauto_reapply=yes\n".toList,
          77) ∧
    ("voltage_max=".toList ++ fmt_d store_vmax.g_targets.voltage_max_uv ++ ['\n'])
      <:+: read_text true store_vmax :=
  ⟨by decide, by decide,
   (proc_read_snapshot true store_vmax 4096
      ⟨by decide, by decide, by decide, by decide, by decide, by decide⟩ (by decide)).2.2.1⟩

end ChgParamOverride

namespace ChgParamOverride

open Kernel

/-! ## The notifier and the debounce token, C12 -/

theorem psy_event_handler_eq (st : Store) (event : Nat) (psy : Option power_supply)
    (w : delayed_work) :
    psy_event_handler st event psy w
      = if tracked st (SchedInput.notify event psy) then (NOTIFY_OK, schedule_delayed_work w)
        else (NOTIFY_DONE, w) := by
  unfold psy_event_handler tracked psy_name
  cases psy with
  | none => simp
  | some p =>
    by_cases he : event = PSY_EVENT_PROP_CHANGED
    · cases hd : p.desc with
      | none => simp [he, hd]
      | some d =>
        cases hn : d.name with
        | none => simp [he, hd, hn]
        | some name => simp [he, hd, hn]
    · simp [he]

theorem sched_step_notify (sys : Subsys) (st : Store) (s : Sched) (i : SchedInput)
    (hi : is_notify i = true) :
    sched_step sys st s i
      = { work := if tracked st i then schedule_delayed_work s.work else s.work,
          trace := s.trace } := by
  cases i with
  | expire => simp [is_notify] at hi
  | notify event psy =>
    simp only [sched_step, psy_event_handler_eq]
    split_ifs <;> rfl

/-- A run of notifications leaves the trace alone; the work is pending
afterwards when it was pending before or one of them was tracked, and a timer
was armed only in the second case. -/
theorem sched_run_notifications (sys : Subsys) (st : Store) (evs : List SchedInput) :
    ∀ s : Sched, (∀ i ∈ evs, is_notify i = true) →
      sched_run sys st s evs
        = { work :=
              { pending := s.work.pending || evs.any (tracked st),
                timers_started := s.work.timers_started
                  + (if !s.work.pending && evs.any (tracked st) then 1 else 0) },
            trace := s.trace } := by
  induction evs with
  | nil =>
    intro s _
    simp [sched_run]
  | cons i evs ih =>
    intro s h
    have hi := h i (List.mem_cons_self _ _)
    have ht := ih (sched_step sys st s i) (fun x hx => h x (List.mem_cons_of_mem _ hx))
    simp only [sched_run, List.foldl_cons] at ht ⊢
    rw [ht, sched_step_notify sys st s i hi]
    cases hp : s.work.pending <;> cases hti : tracked st i <;>
      cases hany : evs.any (tracked st) <;>
      simp [schedule_delayed_work, hp, hti, hany]

theorem sched_run_append (sys : Subsys) (st : Store) (s : Sched) (a b : List SchedInput) :
    sched_run sys st s (a ++ b) = sched_run sys st (sched_run sys st s a) b := by
  simp [sched_run, List.foldl_append]

/-- C12: `psy_event_handler` returns `NOTIFY_OK` and calls
`schedule_delayed_work` exactly for a property-changed event of a device named
`target_batt` or `target_usb`, and otherwise returns `NOTIFY_DONE` leaving the
debounce token as it is; when a run of notifications with at least one tracked
one is followed by the expiry of the timer, `reapply_work_fn` runs exactly
once (one apply pass, on the store), the token is idle again, and one timer
was armed if the token was idle before and none if it was pending; a run with
no tracked notification on an idle token runs nothing. -/
theorem debounce_one_reapply (sys : Subsys) (st : Store) (s : Sched) (evs : List SchedInput)
    (hn : ∀ i ∈ evs, is_notify i = true) :
    (∀ (event : Nat) (psy : Option power_supply) (w : delayed_work),
      psy_event_handler st event psy w
        = if event = PSY_EVENT_PROP_CHANGED ∧
              (psy_name psy = some st.target_batt ∨ psy_name psy = some st.target_usb)
          then (NOTIFY_OK, schedule_delayed_work w) else (NOTIFY_DONE, w)) ∧
    ((∃ i ∈ evs, tracked st i = true) →
      sched_run sys st s (evs ++ [SchedInput.expire])
        = { work := { pending := false,
                      timers_started := s.work.timers_started
                        + (if s.work.pending then 0 else 1) },
            trace := s.trace ++ reapply_work_fn sys st } ∧
      apply_passes (sched_run sys st s (evs ++ [SchedInput.expire])).trace
        = apply_passes s.trace ++ [st]) ∧
    ((∀ i ∈ evs, tracked st i = false) → s.work.pending = false →
      sched_run sys st s (evs ++ [SchedInput.expire]) = s) := by
  refine ⟨?_, ?_, ?_⟩
  · intro event psy w
    rw [psy_event_handler_eq]
    simp [tracked]
  · intro hex
    have hany : evs.any (tracked st) = true := by
      rw [List.any_eq_true]
      exact hex
    have hrun : sched_run sys st s (evs ++ [SchedInput.expire])
        = { work := { pending := false,
                      timers_started := s.work.timers_started
                        + (if s.work.pending then 0 else 1) },
            trace := s.trace ++ reapply_work_fn sys st } := by
      rw [sched_run_append, sched_run_notifications sys st evs s hn, hany]
      cases hp : s.work.pending <;> simp [sched_run, sched_step]
    refine ⟨hrun, ?_⟩
    rw [hrun]
    simp only [apply_passes_append]
    unfold reapply_work_fn
    rw [apply_passes_append, apply_passes_append, apply_passes_apply]
    rfl
  · intro hnone hidle
    have hany : evs.any (tracked st) = false := by
      rw [List.any_eq_false]
      intro x hx
      simp [hnone x hx]
    rw [sched_run_append, sched_run_notifications sys st evs s hn, hany, hidle]
    simp only [sched_run, List.foldl_cons, List.foldl_nil, sched_step, Bool.or_false,
      Bool.false_eq_true, if_false, Bool.and_false, Nat.add_zero]
    cases s with
    | mk work trace =>
      cases work with
      | mk pending ts =>
        simp only at hidle
        subst hidle
        rfl

/-- C12, at four notifications on an idle token, three for `battery` and one for
`wireless`, followed by the expiry of the timer: one timer, one apply pass. -/
theorem debounce_one_reapply_witness :
    (∀ i ∈ [notify_battery, notify_other, notify_battery, notify_battery],
      is_notify i = true) ∧
    (∃ i ∈ [notify_battery, notify_other, notify_battery, notify_battery],
      tracked store_vmax i = true) ∧
    sched_run sys0 store_vmax { work := { pending := false, timers_started := 0 }, trace := [] }
        ([notify_battery, notify_other, notify_battery, notify_battery]
          ++ [SchedInput.expire])
      = { work := { pending := false, timers_started := 1 },
          trace := reapply_work_fn sys0 store_vmax } ∧
    apply_passes (sched_run sys0 store_vmax
        { work := { pending := false, timers_started := 0 }, trace := [] }
        ([notify_battery, notify_other, notify_battery, notify_battery]
          ++ [SchedInput.expire])).trace = [store_vmax] :=
  ⟨by decide, by decide,
   ((debounce_one_reapply sys0 store_vmax
      { work := { pending := false, timers_started := 0 }, trace := [] }
      [notify_battery, notify_other, notify_battery, notify_battery] (by decide)).2.1
        (by decide)).1,
   ((debounce_one_reapply sys0 store_vmax
      { work := { pending := false, timers_started := 0 }, trace := [] }
      [notify_battery, notify_other, notify_battery, notify_battery] (by decide)).2.1
        (by decide)).2⟩

end ChgParamOverride

namespace BattDesignOverride

open Kernel

/-! ## Invocations in flight, C13 -/

theorem interleavings_nil_left {α : Type} (ys : List α) : interleavings [] ys = [ys] := rfl

theorem interleavings_nil_right {α : Type} (x : α) (xs : List α) :
    interleavings (x :: xs) [] = [x :: xs] := rfl

theorem interleavings_cons_cons {α : Type} (x y : α) (xs ys : List α) :
    interleavings (x :: xs) (y :: ys)
      = (interleavings xs (y :: ys)).map (fun t => x :: t)
        ++ (interleavings (x :: xs) ys).map (fun t => y :: t) := rfl

theorem mem_interleavings_left {α : Type} (x : α) (xs ys t : List α)
    (h : t ∈ interleavings xs ys) : x :: t ∈ interleavings (x :: xs) ys := by
  cases ys with
  | nil =>
    cases xs with
    | nil =>
      rw [interleavings_nil_left] at h
      rw [interleavings_nil_right]
      simpa using h
    | cons a as =>
      rw [interleavings_nil_right] at h
      rw [interleavings_nil_right]
      simpa using h
  | cons y ys =>
    rw [interleavings_cons_cons]
    exact List.mem_append_left _ (List.mem_map.mpr ⟨t, h, rfl⟩)

theorem mem_interleavings_right {α : Type} (y : α) (xs ys t : List α)
    (h : t ∈ interleavings xs ys) : y :: t ∈ interleavings xs (y :: ys) := by
  cases xs with
  | nil =>
    rw [interleavings_nil_left] at h ⊢
    simpa using h
  | cons x xs =>
    rw [interleavings_cons_cons]
    exact List.mem_append_right _ (List.mem_map.mpr ⟨t, h, rfl⟩)

/-- A sequence whose events of each kind, taken in order, are `xs` and `ys` is
one of the merges of `xs` and `ys`. -/
theorem mem_interleavings_of_filter {α : Type} (q : α → Bool) (tr : List α) :
    tr ∈ interleavings (tr.filter q) (tr.filter (fun e => !q e)) := by
  induction tr with
  | nil => simp [interleavings_nil_left]
  | cons e t ih =>
    by_cases he : q e = true
    · simp only [List.filter_cons, he, if_true, Bool.not_true, Bool.false_eq_true, if_false]
      exact mem_interleavings_left e _ _ t ih
    · simp only [Bool.not_eq_true] at he
      simp only [List.filter_cons, he, Bool.false_eq_true, if_false, Bool.not_false, if_true]
      exact mem_interleavings_right e _ _ t ih

theorem interleavings_A_B :
    interleavings (inv_events Inv.A) (inv_events Inv.B)
      = [[PEvent.entry Inv.A, PEvent.body Inv.A, PEvent.ret Inv.A,
            PEvent.entry Inv.B, PEvent.body Inv.B, PEvent.ret Inv.B],
         [PEvent.entry Inv.A, PEvent.body Inv.A, PEvent.entry Inv.B,
            PEvent.ret Inv.A, PEvent.body Inv.B, PEvent.ret Inv.B],
         [PEvent.entry Inv.A, PEvent.body Inv.A, PEvent.entry Inv.B,
            PEvent.body Inv.B, PEvent.ret Inv.A, PEvent.ret Inv.B],
         [PEvent.entry Inv.A, PEvent.body Inv.A, PEvent.entry Inv.B,
            PEvent.body Inv.B, PEvent.ret Inv.B, PEvent.ret Inv.A],
         [PEvent.entry Inv.A, PEvent.entry Inv.B, PEvent.body Inv.A,
            PEvent.ret Inv.A, PEvent.body Inv.B, PEvent.ret Inv.B],
         [PEvent.entry Inv.A, PEvent.entry Inv.B, PEvent.body Inv.A,
            PEvent.body Inv.B, PEvent.ret Inv.A, PEvent.ret Inv.B],
         [PEvent.entry Inv.A, PEvent.entry Inv.B, PEvent.body Inv.A,
            PEvent.body Inv.B, PEvent.ret Inv.B, PEvent.ret Inv.A],
         [PEvent.entry Inv.A, PEvent.entry Inv.B, PEvent.body Inv.B,
            PEvent.body Inv.A, PEvent.ret Inv.A, PEvent.ret Inv.B],
         [PEvent.entry Inv.A, PEvent.entry Inv.B, PEvent.body Inv.B,
            PEvent.body Inv.A, PEvent.ret Inv.B, PEvent.ret Inv.A],
         [PEvent.entry Inv.A, PEvent.entry Inv.B, PEvent.body Inv.B,
            PEvent.ret Inv.B, PEvent.body Inv.A, PEvent.ret Inv.A],
         [PEvent.entry Inv.B, PEvent.entry Inv.A, PEvent.body Inv.A,
            PEvent.ret Inv.A, PEvent.body Inv.B, PEvent.ret Inv.B],
         [PEvent.entry Inv.B, PEvent.entry Inv.A, PEvent.body Inv.A,
            PEvent.body Inv.B, PEvent.ret Inv.A, PEvent.ret Inv.B],
         [PEvent.entry Inv.B, PEvent.entry Inv.A, PEvent.body Inv.A,
            PEvent.body Inv.B, PEvent.ret Inv.B, PEvent.ret Inv.A],
         [PEvent.entry Inv.B, PEvent.entry Inv.A, PEvent.body Inv.B,
            PEvent.body Inv.A, PEvent.ret Inv.A, PEvent.ret Inv.B],
         [PEvent.entry Inv.B, PEvent.entry Inv.A, PEvent.body Inv.B,
            PEvent.body Inv.A, PEvent.ret Inv.B, PEvent.ret Inv.A],
         [PEvent.entry Inv.B, PEvent.entry Inv.A, PEvent.body Inv.B,
            PEvent.ret Inv.B, PEvent.body Inv.A, PEvent.ret Inv.A],
         [PEvent.entry Inv.B, PEvent.body Inv.B, PEvent.entry Inv.A,
            PEvent.body Inv.A, PEvent.ret Inv.A, PEvent.ret Inv.B],
         [PEvent.entry Inv.B, PEvent.body Inv.B, PEvent.entry Inv.A,
            PEvent.body Inv.A, PEvent.ret Inv.B, PEvent.ret Inv.A],
         [PEvent.entry Inv.B, PEvent.body Inv.B, PEvent.entry Inv.A,
            PEvent.ret Inv.B, PEvent.body Inv.A, PEvent.ret Inv.A],
         [PEvent.entry Inv.B, PEvent.body Inv.B, PEvent.ret Inv.B,
            PEvent.entry Inv.A, PEvent.body Inv.A, PEvent.ret Inv.A]] := by
  decide

end BattDesignOverride

namespace BattDesignOverride

open Kernel

theorem free_instance_eq (s : PState) :
    free_instance s
      = some (if s.inst Inv.A = some 0 ∨ s.inst Inv.B = some 0 then
          (if s.inst Inv.A = some 1 ∨ s.inst Inv.B = some 1 then 2 else 1) else 0) := by
  have hr : List.range ps_getprop_maxactive
      = 0 :: 1 :: 2 :: (List.range ps_getprop_maxactive).drop 3 := by decide
  unfold free_instance
  rw [hr]
  simp only [List.find?_cons]
  cases hA : s.inst Inv.A with
  | none =>
    cases hB : s.inst Inv.B with
    | none => simp
    | some b =>
      by_cases h0 : b = 0
      · subst h0
        simp
      · simp [h0]
  | some a =>
    cases hB : s.inst Inv.B with
    | none =>
      by_cases h0 : a = 0
      · subst h0
        simp
      · simp [h0]
    | some b =>
      by_cases ha0 : a = 0 <;> by_cases hb0 : b = 0 <;> by_cases ha1 : a = 1 <;>
        by_cases hb1 : b = 1 <;> simp [ha0, hb0, ha1, hb1]

theorem filter_inv_B (tr : List PEvent) :
    tr.filter (fun e => decide (e.inv = Inv.B))
      = tr.filter (fun e => !decide (e.inv = Inv.A)) := by
  apply List.filter_congr
  intro e _
  cases h : e.inv <;> simp

/-- C13: for every interleaving of the entry, body and return events of two
invocations in flight with distinct output addresses, each invocation ends
with its own output holding what its return handler leaves when the
invocation runs on its own, every other address is untouched and both
instances are recycled: the return handler of one invocation reads the context
saved at that invocation's entry and writes only that invocation's output. -/
theorem no_cross_talk (p : Params) (calls : Inv → Call) (s0 : PState) (tr : List PEvent)
    (oA oB : power_supply_propval)
    (hA : tr.filter (fun e => decide (e.inv = Inv.A)) = inv_events Inv.A)
    (hB : tr.filter (fun e => decide (e.inv = Inv.B)) = inv_events Inv.B)
    (hfree : s0.inst Inv.A = none ∧ s0.inst Inv.B = none)
    (hval : (calls Inv.A).val ≠ (calls Inv.B).val)
    (haloneA : alone p (calls Inv.A) = Outcome.done (some oA))
    (haloneB : alone p (calls Inv.B) = Outcome.done (some oB)) :
    ∃ s : PState, prun p calls s0 tr = Outcome.done s ∧
      s.mem (calls Inv.A).val = oA ∧ s.mem (calls Inv.B).val = oB ∧
      (∀ a, a ≠ (calls Inv.A).val → a ≠ (calls Inv.B).val → s.mem a = s0.mem a) ∧
      s.inst Inv.A = none ∧ s.inst Inv.B = none := by
  have hmem := mem_interleavings_of_filter (fun e => decide (e.inv = Inv.A)) tr
  rw [← filter_inv_B, hA, hB, interleavings_A_B] at hmem
  simp only [List.mem_cons, List.mem_singleton, List.not_mem_nil, or_false] at hmem
  obtain ⟨hfA, hfB⟩ := hfree
  unfold alone at haloneA haloneB
  have hval2 : (calls Inv.B).val ≠ (calls Inv.A).val := fun h => hval h.symm
  rcases hmem with h | h | h | h | h | h | h | h | h | h | h | h | h | h | h | h | h | h | h | h <;> subst h <;>
    simp [prun, pstep, free_instance_eq, entry_handler, Function.update_apply, hfA, hfB, hval,
      hval2, haloneA, haloneB] <;>
    intro a h1 h2 <;> simp [h1, h2]

/-- C13, at a CHARGE_FULL_DESIGN read of `battery` into address 100 in flight
together with one of `usb` into address 200, B entering and returning between
A's entry and A's return: A's output holds the override 5000000, B's output
holds the driver's 7. -/
theorem no_cross_talk_witness :
    ([PEvent.entry Inv.A, PEvent.entry Inv.B, PEvent.body Inv.B, PEvent.body Inv.A,
        PEvent.ret Inv.B, PEvent.ret Inv.A].filter (fun e => decide (e.inv = Inv.A))
      = inv_events Inv.A) ∧
    ([PEvent.entry Inv.A, PEvent.entry Inv.B, PEvent.body Inv.B, PEvent.body Inv.A,
        PEvent.ret Inv.B, PEvent.ret Inv.A].filter (fun e => decide (e.inv = Inv.B))
      = inv_events Inv.B) ∧
    (calls0 Inv.A).val ≠ (calls0 Inv.B).val ∧
    alone params0 (calls0 Inv.A)
      = Outcome.done (some (power_supply_propval.intval 5000000)) ∧
    alone params0 (calls0 Inv.B) = Outcome.done (some (power_supply_propval.intval 7)) ∧
    ∃ s : PState,
      prun params0 calls0 pstate0
          [PEvent.entry Inv.A, PEvent.entry Inv.B, PEvent.body Inv.B, PEvent.body Inv.A,
            PEvent.ret Inv.B, PEvent.ret Inv.A] = Outcome.done s ∧
      s.mem (calls0 Inv.A).val = power_supply_propval.intval 5000000 ∧
      s.mem (calls0 Inv.B).val = power_supply_propval.intval 7 ∧
      (∀ a, a ≠ (calls0 Inv.A).val → a ≠ (calls0 Inv.B).val → s.mem a = pstate0.mem a) ∧
      s.inst Inv.A = none ∧ s.inst Inv.B = none :=
  ⟨by decide, by decide, by decide, by decide, by decide,
   no_cross_talk params0 calls0 pstate0 _ _ _ (by decide) (by decide) ⟨rfl, rfl⟩ (by decide)
     (by decide) (by decide)⟩

end BattDesignOverride

namespace ChgParamOverride

open Kernel

/-! ## The lock and the property writes, C14 -/

theorem touches_lock_append (a b : List Event) :
    touches_lock (a ++ b) = (touches_lock a || touches_lock b) := by
  simp [touches_lock]

theorem touches_lock_apply_one (sys : Subsys) (p : power_supply) (psp : power_supply_property)
    (v : Int) : touches_lock (apply_one sys p psp v) = false := by
  unfold apply_one
  split_ifs
  · unfold write_psy_int
    simp only
    cases p.desc with
    | none => simp [touches_lock]
    | some d => by_cases h : d.set_property = true <;> simp [touches_lock, h]
  · rfl

theorem touches_lock_apply (sys : Subsys) (st : Store) :
    touches_lock (apply_targets_locked sys st).2 = false := by
  unfold apply_targets_locked
  cases sys.power_supply_get_by_name st.target_batt <;>
    cases sys.power_supply_get_by_name st.target_usb <;>
    simp only [touches_lock_append, touches_lock_apply_one] <;> rfl

theorem writes_locked_held (tr rest : List Event) (h : touches_lock tr = false) :
    writes_locked true (tr ++ rest) = writes_locked true rest := by
  induction tr with
  | nil => rfl
  | cons e t ih =>
    have ht : touches_lock t = false := by
      simp only [touches_lock, List.any_cons, Bool.or_eq_false_iff] at h ⊢
      exact h.2
    cases e <;> simp [touches_lock] at h <;> simp [writes_locked, ih ht]

theorem writes_unlocked_held (tr rest : List Event) (h : touches_lock tr = false) :
    writes_unlocked true (tr ++ rest)
      = ((property_writes tr).isEmpty && writes_unlocked true rest) := by
  induction tr with
  | nil => simp [property_writes]
  | cons e t ih =>
    have ht : touches_lock t = false := by
      simp only [touches_lock, List.any_cons, Bool.or_eq_false_iff] at h ⊢
      exact h.2
    cases e <;> simp [touches_lock] at h <;>
      simp [writes_unlocked, ih ht, property_writes]

theorem property_writes_append (a b : List Event) :
    property_writes (a ++ b) = property_writes a ++ property_writes b := by
  simp [property_writes]

theorem locked_trace (tr : List Event) (hl : touches_lock tr = false) :
    writes_locked false ([Event.mutex_lock] ++ tr ++ [Event.mutex_unlock]) = true ∧
    writes_unlocked false ([Event.mutex_lock] ++ tr ++ [Event.mutex_unlock])
      = (property_writes ([Event.mutex_lock] ++ tr ++ [Event.mutex_unlock])).isEmpty := by
  have e1 : [Event.mutex_lock] ++ tr ++ [Event.mutex_unlock]
      = Event.mutex_lock :: (tr ++ [Event.mutex_unlock]) := by simp
  have e2 : ∀ x : List Event, writes_locked false (Event.mutex_lock :: x) = writes_locked true x :=
    fun _ => rfl
  have e3 : ∀ x : List Event,
      writes_unlocked false (Event.mutex_lock :: x) = writes_unlocked true x := fun _ => rfl
  have e4 : ∀ x : List Event, property_writes (Event.mutex_lock :: x) = property_writes x :=
    fun _ => rfl
  rw [e1, e2, e3, e4, writes_locked_held _ _ hl, writes_unlocked_held _ _ hl,
    property_writes_append]
  constructor
  · rfl
  · have e5 : property_writes [Event.mutex_unlock] = [] := rfl
    have e6 : writes_unlocked true [Event.mutex_unlock] = true := rfl
    rw [e5, e6, List.append_nil, Bool.and_true]

/-- The events of one locked apply pass: every property write happens with the
lock held. -/
theorem locked_pass (sys : Subsys) (st : Store) :
    writes_locked false
        ([Event.mutex_lock] ++ (apply_targets_locked sys st).2 ++ [Event.mutex_unlock]) = true ∧
    writes_unlocked false
        ([Event.mutex_lock] ++ (apply_targets_locked sys st).2 ++ [Event.mutex_unlock])
      = (property_writes
          ([Event.mutex_lock] ++ (apply_targets_locked sys st).2
            ++ [Event.mutex_unlock])).isEmpty :=
  locked_trace _ (touches_lock_apply sys st)

/-- The shapes of the trace of `proc_write`. -/
theorem proc_write_trace (PAGE_SIZE : Nat) (sys : Subsys) (kzalloc_ok copy_ok : Bool)
    (buf : List Char) (st : Store) :
    ∃ (rc : Int) (st1 : Store) (tr : List Event),
      proc_write PAGE_SIZE sys kzalloc_ok copy_ok buf st = some (rc, st1, tr) ∧
      (tr = [] ∨ tr = [Event.mutex_lock, Event.mutex_unlock] ∨
        tr = [Event.mutex_lock] ++ (apply_targets_locked sys st1).2 ++ [Event.mutex_unlock]) := by
  by_cases hok : 1 ≤ buf.length ∧ buf.length ≤ PAGE_SIZE ∧ kzalloc_ok = true ∧ copy_ok = true
  · obtain ⟨h1, h2, h3, h4⟩ := hok
    subst h3 h4
    rw [proc_write_ok_eq PAGE_SIZE sys buf st ⟨h1, h2⟩]
    split_ifs
    · exact ⟨_, _, _, rfl, Or.inr (Or.inr rfl)⟩
    · exact ⟨_, _, _, rfl, Or.inr (Or.inl rfl)⟩
  · unfold proc_write
    by_cases hl : buf.length = 0 ∨ buf.length > PAGE_SIZE
    · exact ⟨-EINVAL, st, [], by simp only [hl, if_true], Or.inl rfl⟩
    · cases kzalloc_ok with
      | false =>
        exact ⟨-ENOMEM, st, [], by simp only [hl, if_false, Bool.not_false, if_true], Or.inl rfl⟩
      | true =>
        cases copy_ok with
        | false =>
          exact ⟨-EFAULT, st, [], by
            simp only [hl, if_false, Bool.not_true, Bool.false_eq_true, Bool.not_false,
              if_true], Or.inl rfl⟩
        | true => exact absurd ⟨by omega, by omega, rfl, rfl⟩ hok

/-- C14, as stated, fails: the write `voltage_max=4460000` issues
`power_supply_set_property(battery, VOLTAGE_MAX, 4460000)` between `mutex_lock`
and `mutex_unlock`, and so does `reapply_work_fn` on the store it leaves. -/
theorem proc_write_writes_under_lock :
    proc_write 4096 sys0 true true "voltage_max=4460000".toList store0
      = some (19, store_vmax,
          [Event.mutex_lock,
           Event.apply_enter store_vmax,
           Event.get_by_name "battery".toList,
           Event.get_by_name "usb".toList,
           Event.set_property ⟨some ⟨some "battery".toList, true⟩⟩
             power_supply_property.VOLTAGE_MAX 4460000,
           Event.write_psy_int ⟨some ⟨some "battery".toList, true⟩⟩
             power_supply_property.VOLTAGE_MAX 4460000 (-22),
           Event.put ⟨some ⟨some "battery".toList, true⟩⟩,
           Event.put ⟨some ⟨some "usb".toList, false⟩⟩,
           Event.mutex_unlock]) ∧
    (proc_write 4096 sys0 true true "voltage_max=4460000".toList store0).map
        (fun r => writes_unlocked false r.2.2) = some false ∧
    writes_unlocked false (reapply_work_fn sys0 store_vmax) = false := by
  decide

/-- C14 (amended): in every execution of `proc_write` and of `reapply_work_fn`
every property write issued to the subsystem is issued while `g_lock` is held:
the apply pass runs between `mutex_lock` and `mutex_unlock` on the store itself,
so the lock is free at every write only in the executions that write nothing. -/
theorem writes_happen_under_lock (PAGE_SIZE : Nat) (sys : Subsys) (kzalloc_ok copy_ok : Bool)
    (buf : List Char) (st : Store) :
    (∃ (rc : Int) (st1 : Store) (tr : List Event),
      proc_write PAGE_SIZE sys kzalloc_ok copy_ok buf st = some (rc, st1, tr) ∧
      writes_locked false tr = true ∧
      writes_unlocked false tr = (property_writes tr).isEmpty) ∧
    reapply_work_fn sys st
      = [Event.mutex_lock] ++ (apply_targets_locked sys st).2 ++ [Event.mutex_unlock] ∧
    apply_passes (reapply_work_fn sys st) = [st] ∧
    writes_locked false (reapply_work_fn sys st) = true ∧
    writes_unlocked false (reapply_work_fn sys st)
      = (property_writes (reapply_work_fn sys st)).isEmpty := by
  refine ⟨?_, rfl, ?_, (locked_pass sys st).1, (locked_pass sys st).2⟩
  · obtain ⟨rc, st1, tr, hpw, hshape⟩ :=
      proc_write_trace PAGE_SIZE sys kzalloc_ok copy_ok buf st
    refine ⟨rc, st1, tr, hpw, ?_⟩
    rcases hshape with h | h | h
    · subst h
      exact ⟨rfl, rfl⟩
    · subst h
      exact ⟨rfl, rfl⟩
    · subst h
      exact locked_pass sys st1
  · unfold reapply_work_fn
    rw [apply_passes_append, apply_passes_append, apply_passes_apply]
    rfl

end ChgParamOverride
